import Mathlib

/-!
# Verification of the freebusy-api calendar core

Shallow embedding of the calendar-feed normalization engine of
`robertsinfosec/freebusy-api` (TypeScript, Cloudflare Worker):

* `src/time.ts`  — zoned time utility (`getZonedParts`, `getOffsetMinutes`,
  `utcMillisFromZonedLocal`, `addDaysToZonedYmd`, `formatYmd`);
* `src/freebusy.ts` — `buildWindowV2`, `clipAndMerge`;
* `src/ical.ts` — `unfoldLines`, `parseDuration`, `parseICalDate`,
  `parseEventComponents`.

JavaScript `Date` instants are modelled as `Int` (milliseconds since the Unix
epoch); `Date.UTC` / the UTC field getters are the proleptic Gregorian
calendar functions mandated by ECMAScript (MakeDay/MakeDate), embedded below
via Howard Hinnant's `days_from_civil` / `civil_from_days` algorithms, which
compute the same day numbering.  An IANA timezone is modelled by its
UTC-offset function (minutes east of UTC at a given absolute instant):
`Intl.DateTimeFormat(...{timeZone}).formatToParts(d)` yields exactly the UTC
calendar fields of `d + offset(d)·60000`.  The timezone database is a partial
map from names to zones; `Intl` throwing on an unknown name is the `none`
case.
-/

namespace FreeBusy

/-- Day number of a civil date (days since 1970-01-01); Hinnant's
`days_from_civil`, which agrees with ECMAScript's Day/MakeDay numbering.
`month` is 1-based here. -/
def daysFromCivil (ymd : Int × Int × Int) : Int :=
  let y0 := ymd.1
  let m := ymd.2.1
  let d := ymd.2.2
  let y := if m ≤ 2 then y0 - 1 else y0
  let era := y / 400
  let yoe := y - era * 400
  let doy := (153 * (if 2 < m then m - 3 else m + 9) + 2) / 5 + d - 1
  let doe := yoe * 365 + yoe / 4 - yoe / 100 + doy
  era * 146097 + doe - 719468

/-- Civil date (year, 1-based month, day) of a day number; Hinnant's
`civil_from_days`, the inverse used by the ECMAScript UTC field getters. -/
def civilFromDays (z : Int) : Int × Int × Int :=
  let z2 := z + 719468
  let era := z2 / 146097
  let doe := z2 - era * 146097
  let yoe := (doe - doe / 1460 + doe / 36524 - doe / 146096) / 365
  let y := yoe + era * 400
  let doy := doe - (365 * yoe + yoe / 4 - yoe / 100)
  let mp := (5 * doy + 2) / 153
  let d := doy - (153 * mp + 2) / 5 + 1
  let m := if mp < 10 then mp + 3 else mp - 9
  (if m ≤ 2 then y + 1 else y, m, d)

/-- `Date.UTC(y, m0, d, h, mi, s, ms)` with 0-based month `m0`.  ECMAScript
MakeDay normalizes month overflow (`ym = y + floor(m0/12)`, `mn = m0 mod 12`
with non-negative result) and day overflow (day counted from the 1st). -/
def dateUTCms (y m0 d h mi s ms : Int) : Int :=
  let ym := y + m0 / 12
  let mn := m0 % 12
  (daysFromCivil (ym, mn + 1, 1) + (d - 1)) * 86400000
    + h * 3600000 + mi * 60000 + s * 1000 + ms

/-- The first day-of-era of a year-of-era, `365·yoe + ⌊yoe/4⌋ − ⌊yoe/100⌋`
(the subterm both calendar functions use). -/
def startOfYoe (yoe : Int) : Int := 365 * yoe + yoe / 4 - yoe / 100

/-- The year-of-era formula inside `civilFromDays`. -/
def doeToYoe (doe : Int) : Int := (doe - doe / 1460 + doe / 36524 - doe / 146096) / 365

/-- The UTC calendar fields of an instant, as read by
`getUTCFullYear`/`getUTCMonth`/`getUTCDate`/`getUTCHours`/… -/
structure DTFields where
  year : Int
  month : Int
  day : Int
  hour : Int
  minute : Int
  second : Int
deriving DecidableEq, Repr

def msToFields (t : Int) : DTFields :=
  let zd := t / 86400000
  let r := t % 86400000
  let c := civilFromDays zd
  { year := c.1, month := c.2.1, day := c.2.2
    hour := r / 3600000
    minute := (r % 3600000) / 60000
    second := (r % 60000) / 1000 }

/-- A resolvable IANA timezone, modelled by its UTC-offset function (minutes
east of UTC at an absolute instant).  `Intl.DateTimeFormat` wall-clock output
for the zone at instant `t` is the UTC field decomposition of
`t + offsetMin t * 60000`. -/
structure Zone where
  offsetMin : Int → Int

/-- The timezone database consulted by `Intl`; an unsupported/invalid name is
`none` (where `Intl.DateTimeFormat` throws a `RangeError`). -/
def TzDb : Type := String → Option Zone

/-- A fixed-offset zone (offset constant over time), e.g. UTC-05:00 is
`fixedZone (-300)`. -/
def fixedZone (o : Int) : Zone := ⟨fun _ => o⟩

/-- `getZonedParts` from `src/time.ts`: the wall-clock fields of `t` in the
zone, via `Intl.DateTimeFormat(...).formatToParts`. -/
def getZonedParts (t : Int) (z : Zone) : DTFields :=
  msToFields (t + z.offsetMin t * 60000)

/-- `getOffsetMinutes` from `src/time.ts`:
`Math.round((Date.UTC(zoned fields) - t)/60000)`.  `Math.round x` is
`⌊x + 1/2⌋`, written below in the exact integer form
`⌊(2·(asUTC − t) + 60000) / 120000⌋`. -/
def getOffsetMinutesT (z : Zone) (t : Int) : Int :=
  let p := getZonedParts t z
  let asUTC := dateUTCms p.year (p.month - 1) p.day p.hour p.minute p.second 0
  (2 * (asUTC - t) + 60000) / 120000

/-- `localDateTimeToUtcMillis` from `src/time.ts`: two-pass local→UTC
conversion (second offset lookup handles a DST change at the boundary). -/
def localDateTimeToUtcMillis (f : DTFields) (ms : Int) (z : Zone) : Int :=
  let utcGuess := dateUTCms f.year (f.month - 1) f.day f.hour f.minute f.second ms
  let offset1 := getOffsetMinutesT z utcGuess
  let utcMillis := utcGuess - offset1 * 60000
  let offset2 := getOffsetMinutesT z utcMillis
  if offset2 ≠ offset1 then utcGuess - offset2 * 60000 else utcMillis

/-- `utcMillisFromZonedLocal` for a date at local midnight (the only use in
`buildWindowV2`); `second`/`millisecond` default to 0. -/
def utcMillisFromZonedLocal (y m d h mi : Int) (z : Zone) : Int :=
  localDateTimeToUtcMillis ⟨y, m, d, h, mi, 0⟩ 0 z

/-- `getZonedYmd` from `src/time.ts`. -/
def getZonedYmd (t : Int) (z : Zone) : Int × Int × Int :=
  let p := getZonedParts t z
  (p.year, p.month, p.day)

/-- `addDaysToZonedYmd` from `src/time.ts`:
`d = new Date(Date.UTC(y, m-1, day)); d.setUTCDate(d.getUTCDate() + days)`,
then read the UTC fields back. -/
def addDaysToZonedYmd (ymd : Int × Int × Int) (days : Int) : Int × Int × Int :=
  let t := dateUTCms ymd.1 (ymd.2.1 - 1) ymd.2.2 0 0 0 0
  let f := msToFields t
  let t2 := dateUTCms f.year (f.month - 1) (f.day + days) 0 0 0 0
  let f2 := msToFields t2
  (f2.year, f2.month, f2.day)

/-- `String(n).padStart(2, "0")`. -/
def pad2 (n : Int) : String :=
  let s := toString n
  if s.length < 2 then "0" ++ s else s

/-- `formatYmd` from `src/time.ts`. -/
def formatYmd (ymd : Int × Int × Int) : String :=
  toString ymd.1 ++ "-" ++ pad2 ymd.2.1 ++ "-" ++ pad2 ymd.2.2

/-- `WindowV2` from `src/freebusy.ts`. -/
structure WindowV2 where
  startDate : String
  endDateInclusive : String
  startMsUtc : Int
  endMsUtcExclusive : Int
deriving DecidableEq, Repr

/-- `buildWindowV2` from `src/freebusy.ts`: window anchored to owner-local
dates, returned as local dates plus the UTC half-open range. -/
def buildWindowV2 (windowWeeks : Int) (now : Int) (z : Zone) : WindowV2 :=
  let startYmd := getZonedYmd now z
  let totalDays := windowWeeks * 7
  let endYmd := addDaysToZonedYmd startYmd (totalDays - 1)
  let endExclusiveYmd := addDaysToZonedYmd endYmd 1
  let startMsUtc := utcMillisFromZonedLocal startYmd.1 startYmd.2.1 startYmd.2.2 0 0 z
  let endMsUtcExclusive :=
    utcMillisFromZonedLocal endExclusiveYmd.1 endExclusiveYmd.2.1 endExclusiveYmd.2.2 0 0 z
  { startDate := formatYmd startYmd
    endDateInclusive := formatYmd endYmd
    startMsUtc := startMsUtc
    endMsUtcExclusive := endMsUtcExclusive }

/-! ## `clipAndMerge` (src/freebusy.ts) -/

inductive BusyKind where
  | time
  | allDay
deriving DecidableEq, Repr

/-- `BusyInterval` from `src/freebusy.ts`. -/
structure BusyInterval where
  startMsUtc : Int
  endMsUtc : Int
  kind : BusyKind
deriving DecidableEq, Repr

/-- The `.map` clipping an interval to the window. -/
def clipInterval (ws we : Int) (i : BusyInterval) : BusyInterval :=
  { startMsUtc := max i.startMsUtc ws, endMsUtc := min i.endMsUtc we, kind := i.kind }

/-- The `.filter` predicate keeping non-empty in-window intervals. -/
def keepInterval (ws we : Int) (i : BusyInterval) : Bool :=
  i.startMsUtc < i.endMsUtc && ws < i.endMsUtc && i.startMsUtc < we

/-- Stable insertion preserving the relative order of equal keys: an element
is inserted after every element with a key `≤` its own.  Any stable sort by
`startMsUtc` (in particular the ECMAScript `Array.prototype.sort`, stable
since ES2019, with comparator `a.startMsUtc - b.startMsUtc`) produces the
same output. -/
def insertByStart (x : BusyInterval) : List BusyInterval → List BusyInterval
  | [] => [x]
  | y :: l =>
      if x.startMsUtc < y.startMsUtc then x :: y :: l else y :: insertByStart x l

def sortByStart : List BusyInterval → List BusyInterval
  | [] => []
  | x :: l => insertByStart x (sortByStart l)

/-- The merged last output after absorbing `cur`:
`last.endMsUtc = Math.max(last.endMsUtc, current.endMsUtc)` and the
`"time"`+`"allDay"` → `"allDay"` kind coarsening. -/
def mergedCell (last cur : BusyInterval) : BusyInterval :=
  { startMsUtc := last.startMsUtc
    endMsUtc := max last.endMsUtc cur.endMsUtc
    kind := if last.kind = BusyKind.time ∧ cur.kind = BusyKind.allDay
            then BusyKind.allDay else last.kind }

/-- One step of the merge sweep.  The accumulator is the `merged` array in
reverse (head = the array's last element); `merged.push({...current})` is a
cons, the in-place `last.endMsUtc = Math.max(...)` / `last.kind = "allDay"`
updates replace the head. -/
def mergeStep (acc : List BusyInterval) (cur : BusyInterval) : List BusyInterval :=
  match acc with
  | [] => [cur]
  | last :: rest =>
      if cur.startMsUtc ≤ last.endMsUtc then mergedCell last cur :: rest
      else cur :: last :: rest

/-- `clipAndMerge` from `src/freebusy.ts`. -/
def clipAndMerge (intervals : List BusyInterval) (ws we : Int) : List BusyInterval :=
  let relevant := (intervals.map (clipInterval ws we)).filter (keepInterval ws we)
  (((sortByStart relevant).foldl mergeStep []).reverse)

/-! ## `unfoldLines` (src/ical.ts)

Logical lines are modelled as `List Char`; `String` wrappers appear only at
the outer boundary. -/

/-- `raw.split(/\r?\n/)`: the separator is a LF optionally preceded by a CR
(a lone CR is not a separator).  One pass, closing the current line at each
LF and stripping the CR that immediately precedes it; the accumulator
collects the current line in reverse (head = the character just before the
LF), so the greedy `\r?` is the head test below. -/
def splitLinesAux : List Char → List Char → List (List Char)
  | [], acc => [acc.reverse]
  | c :: rest, acc =>
      if c = '\n' then
        (if acc.head? = some '\r' then acc.tail.reverse else acc.reverse)
          :: splitLinesAux rest []
      else splitLinesAux rest (c :: acc)

/-- The characters removed by JavaScript `trimEnd` that can occur here
(ASCII whitespace, NBSP and the BOM; the remaining Unicode space separators
are irrelevant to every property below, as both sides of each statement use
the same predicate). -/
def jsWhitespace (c : Char) : Bool :=
  c = ' ' || c = '\t' || c = '\n' || c = '\r' || c.val = 11 || c.val = 12 ||
    c.val = 160 || c.val = 65279

/-- `line.trimEnd()`. -/
def trimEndChars (l : List Char) : List Char :=
  (l.reverse.dropWhile jsWhitespace).reverse

/-- One iteration of the `for (const line of lines)` loop of `unfoldLines`.
The accumulator is the `unfolded` array in reverse (head = last element); the
in-place `unfolded[unfolded.length - 1] += line.slice(1)` replaces the head.
A continuation with an empty `unfolded` is dropped (`continue`). -/
def unfoldStep (acc : List (List Char)) (line : List Char) : List (List Char) :=
  match line with
  | c :: restLine =>
      if c = ' ' ∨ c = '\t' then
        match acc with
        | [] => acc
        | lastLine :: rest => (lastLine ++ restLine) :: rest
      else trimEndChars line :: acc
  | [] => trimEndChars line :: acc

/-- `unfoldLines` from `src/ical.ts`. -/
def unfoldLines (raw : String) : List String :=
  (((splitLinesAux raw.data []).foldl unfoldStep []).reverse).map
    (fun l => String.mk l)

/-! ## `parseDuration` (src/ical.ts)

The regular expression `^P(?:(\d+)D)?(?:T(?:(\d+)H)?(?:(\d+)M)?(?:(\d+)S)?)?$`
is deterministic on every input: a maximal leading digit run must be followed
by the designator of the next available group, otherwise no alternative can
match.  The parser below is that determinization.  `NaN` is `none`.
`Number` of a digit string is its exact value here (in JavaScript the float
result can round above 2^53 ms, far beyond the 366-day cap where `Math.min`
returns the cap either way, so `Nat` arithmetic is faithful for the final
result). -/

def natOfDigits (l : List Char) : Nat :=
  l.foldl (fun n c => 10 * n + (c.toNat - 48)) 0

/-- The maximal leading digit run together with the character after it
(`none` when there is no such character or the run is empty). -/
def durNum (l : List Char) : Option (Nat × Char × List Char) :=
  let ds := l.takeWhile Char.isDigit
  match l.dropWhile Char.isDigit with
  | c :: rest => if ds.isEmpty then none else some (natOfDigits ds, c, rest)
  | [] => none

/-- After the optional `(\d+)M`: only `(\d+)S` may remain.  Accumulates
seconds. -/
def durParseS (l : List Char) (acc : Nat) : Option Nat :=
  if l.isEmpty then some acc
  else
    match durNum l with
    | some (n, c, rest) =>
        if c = 'S' then (if rest.isEmpty then some (acc + n) else none) else none
    | none => none

def durParseM (l : List Char) (acc : Nat) : Option Nat :=
  if l.isEmpty then some acc
  else
    match durNum l with
    | some (n, c, rest) =>
        if c = 'M' then durParseS rest (acc + n * 60) else durParseS l acc
    | none => durParseS l acc

def durParseH (l : List Char) (acc : Nat) : Option Nat :=
  if l.isEmpty then some acc
  else
    match durNum l with
    | some (n, c, rest) =>
        if c = 'H' then durParseM rest (acc + n * 3600) else durParseM l acc
    | none => durParseM l acc

/-- The optional `T(...)` block. -/
def durParseT (l : List Char) (acc : Nat) : Option Nat :=
  match l with
  | [] => some acc
  | c :: rest => if c = 'T' then durParseH rest acc else none

/-- After the leading `P`: the optional `(\d+)D`, then the optional `T`
block. -/
def durAfterP (l : List Char) : Option Nat :=
  match durNum l with
  | some (n, c, rest) => if c = 'D' then durParseT rest (n * 86400) else durParseT l 0
  | none => durParseT l 0

/-- `MAX_DURATION_MS = 366 * DAY_MS` from `src/ical.ts`. -/
def MAX_DURATION_MS : Nat := 366 * 86400000

/-- `parseDuration` from `src/ical.ts`: total milliseconds capped at 366
days, `none` for anything outside the grammar. -/
def parseDuration (value : String) : Option Nat :=
  match value.data with
  | c :: rest =>
      if c = 'P' then (durAfterP rest).map (fun secs => min (secs * 1000) MAX_DURATION_MS)
      else none
  | [] => none

/-! ## Claim-side reference definitions for C6 and C7 -/

/-- A non-empty all-digit run (`\d+`). -/
def DigitRun (l : List Char) : Prop := l ≠ [] ∧ ∀ c ∈ l, c.isDigit

/-- `[nX]`: an optional number-with-designator component. -/
def optNum (x : Option (List Char)) (letter : Char) : List Char :=
  match x with
  | none => []
  | some ds => ds ++ [letter]

def optVal (x : Option (List Char)) : Nat :=
  match x with
  | none => 0
  | some ds => natOfDigits ds

def optDigits (x : Option (List Char)) : Prop :=
  ∀ ds, x = some ds → DigitRun ds

/-- The optional `T[nH][nM][nS]` block of the claim's grammar. -/
def tPart (t : Option (Option (List Char) × Option (List Char) × Option (List Char))) :
    List Char :=
  match t with
  | none => []
  | some (h, m, s) => 'T' :: (optNum h 'H' ++ optNum m 'M' ++ optNum s 'S')

/-- A string of the claim's grammar `P[nD][T[nH][nM][nS]]`, assembled from
its optional components (`t = none` means the whole `T` block is absent). -/
def durAssemble (d : Option (List Char))
    (t : Option (Option (List Char) × Option (List Char) × Option (List Char))) :
    List Char :=
  'P' :: (optNum d 'D' ++ tPart t)

def durTOk (t : Option (Option (List Char) × Option (List Char) × Option (List Char))) :
    Prop :=
  ∀ hms, t = some hms → optDigits hms.1 ∧ optDigits hms.2.1 ∧ optDigits hms.2.2

/-- Seconds denoted by the optional `T` block. -/
def tSeconds (t : Option (Option (List Char) × Option (List Char) × Option (List Char))) :
    Nat :=
  match t with
  | none => 0
  | some (h, m, s) => optVal h * 3600 + optVal m * 60 + optVal s

/-- Total seconds denoted by the components. -/
def durSeconds (d : Option (List Char))
    (t : Option (Option (List Char) × Option (List Char) × Option (List Char))) : Nat :=
  optVal d * 86400 + tSeconds t

/-- Membership in the claim's duration grammar. -/
def InDurGrammar (s : String) : Prop :=
  ∃ d t, optDigits d ∧ durTOk t ∧ s.data = durAssemble d t

/-- The claim-side description of line unfolding over a given sequence of
physical lines, building the output front-to-back: a line starting with one
space or tab is appended (minus its first character) to the last output
line, a leading continuation with no prior line is dropped, any other line
is pushed after trimming its trailing whitespace. -/
def unfoldSpecGo (out : List (List Char)) : List (List Char) → List (List Char)
  | [] => out
  | line :: rest =>
      if line.head? = some ' ' ∨ line.head? = some '\t' then
        match out.getLast? with
        | none => unfoldSpecGo out rest
        | some lastLine => unfoldSpecGo (out.dropLast ++ [lastLine ++ line.tail]) rest
      else unfoldSpecGo (out ++ [trimEndChars line]) rest

def unfoldSpec (lines : List (List Char)) : List (List Char) :=
  unfoldSpecGo [] lines

/-- Physical lines joined with a fixed line terminator. -/
def joinLines (sep : List Char) : List (List Char) → List Char
  | [] => []
  | [l] => l
  | l :: rest => l ++ sep ++ joinLines sep rest

/-- No carriage return or line feed occurs in the line. -/
def NoCRLF (l : List Char) : Prop := ∀ c ∈ l, c ≠ '\r' ∧ c ≠ '\n'

instance (l : List Char) : Decidable (NoCRLF l) :=
  inferInstanceAs (Decidable (∀ c ∈ l, c ≠ '\r' ∧ c ≠ '\n'))

instance (l : List Char) : Decidable (DigitRun l) :=
  inferInstanceAs (Decidable (_ ∧ _))

instance (x : Option (List Char)) : Decidable (optDigits x) :=
  inferInstanceAs (Decidable (∀ ds, x = some ds → DigitRun ds))

instance (t : Option (Option (List Char) × Option (List Char) × Option (List Char))) :
    Decidable (durTOk t) :=
  inferInstanceAs (Decidable (∀ hms, t = some hms → _ ∧ _ ∧ _))

/-! ## Heap-level model of `clipAndMerge`

JavaScript objects are mutable heap cells and the input array of
`clipAndMerge` holds references.  To state the frame property (the function
never writes to its input objects), the heap is made explicit: a list of
interval cells, a reference is an index, and `.map`'s object literals and
`merged.push({ ...current })` allocate fresh cells at the end of the heap,
while `last.endMsUtc = Math.max(...)` / `last.kind = "allDay"` write through
the reference held in `merged`.  Each phase mirrors `clipAndMerge` exactly. -/

instance : Inhabited BusyInterval := ⟨⟨0, 0, BusyKind.time⟩⟩

/-- Dereference a heap cell (out-of-range reads return the default cell;
they never occur on valid references). -/
def cellAt (h : List BusyInterval) (i : Nat) : BusyInterval := h.getD i default

/-- Phase 1, the `.map`: read each input cell, allocate a fresh clipped copy
(`{ startMsUtc, endMsUtc, kind }` object literal), return the new heap and
the references to the copies. -/
def allocClipped (ws we : Int) : List BusyInterval → List Nat → List BusyInterval × List Nat
  | heap, [] => (heap, [])
  | heap, i :: is =>
      let c := clipInterval ws we (cellAt heap i)
      let r := allocClipped ws we (heap ++ [c]) is
      (r.1, heap.length :: r.2)

/-- Phase 3 helper: stable insertion of a reference, ordered by the start
instant of the referenced cell (the heap is not modified by sorting). -/
def insertIdByStart (h : List BusyInterval) (x : Nat) : List Nat → List Nat
  | [] => [x]
  | y :: l =>
      if (cellAt h x).startMsUtc < (cellAt h y).startMsUtc then x :: y :: l
      else y :: insertIdByStart h x l

def sortIdsByStart (h : List BusyInterval) : List Nat → List Nat
  | [] => []
  | x :: l => insertIdByStart h x (sortIdsByStart h l)

/-- Phase 4, the sweep: the accumulator is the `merged` array of references
in reverse.  A push allocates a fresh copy (`{ ...current }`); a merge writes
the referenced last output cell in place. -/
def mergeStepHeap (st : List BusyInterval × List Nat) (i : Nat) :
    List BusyInterval × List Nat :=
  let cur := cellAt st.1 i
  match st.2 with
  | [] => (st.1 ++ [cur], [st.1.length])
  | lastId :: rest =>
      let last := cellAt st.1 lastId
      if cur.startMsUtc ≤ last.endMsUtc then
        (st.1.set lastId (mergedCell last cur), lastId :: rest)
      else
        (st.1 ++ [cur], st.1.length :: lastId :: rest)

/-- `clipAndMerge` over an explicit heap: takes the heap and the references
held by the input array, returns the final heap and the references held by
the returned array. -/
def clipAndMergeHeap (heap : List BusyInterval) (input : List Nat) (ws we : Int) :
    List BusyInterval × List Nat :=
  let alloc := allocClipped ws we heap input
  let kept := alloc.2.filter (fun i => keepInterval ws we (cellAt alloc.1 i))
  let sorted := sortIdsByStart alloc.1 kept
  let merged := sorted.foldl mergeStepHeap (alloc.1, [])
  (merged.1, merged.2.reverse)

/-! ## The event parser of `src/ical.ts`

The VEVENT scanning path `parseEventComponents` / `parseICalDate` of
`src/ical.ts`, with JavaScript strings as `String`/`List Char` and `Date`
values as `Int` milliseconds.  The `warn` callback never affects a returned
value and is dropped; `Intl.DateTimeFormat` resolving a timezone name is the
`TzDb` argument (`none` where `Intl` throws). -/

/-- `DAY_MS = 24 * 60 * 60 * 1000` from `src/ical.ts`. -/
def DAY_MS : Int := 24 * 60 * 60 * 1000

/-- `getOffsetMinutes` from `src/ical.ts`:
`(Date.UTC(zoned fields) - date.getTime()) / 60000`.  The JavaScript float
division is exact whenever the zone offset is a whole number of minutes and
`date` holds a whole second, which holds at every call site below. -/
def getOffsetMinutes (z : Zone) (t : Int) : Int :=
  let p := getZonedParts t z
  (dateUTCms p.year (p.month - 1) p.day p.hour p.minute p.second 0 - t) / 60000

/-- Exactly `n` leading digits and their numeric value (one `(\d{n})` regex
group), with the rest of the input. -/
def takeDigits (n : Nat) (l : List Char) : Option (Nat × List Char) :=
  let ds := l.take n
  if ds.length = n ∧ ds.all Char.isDigit then some (natOfDigits ds, l.drop n)
  else none

/-- The groups of `/^(\d{4})(\d{2})(\d{2})(?:T(\d{2})(\d{2})(\d{2})(Z)?)?$/`
from `parseICalDate`: year, month, day, hour, minute, second and whether the
trailing `Z` is present (hour, minute and second are `Number("00") = 0` when
the time part is absent). -/
def icalDateFields (l : List Char) : Option (Nat × Nat × Nat × Nat × Nat × Nat × Bool) :=
  match takeDigits 4 l with
  | none => none
  | some (y, r1) =>
    match takeDigits 2 r1 with
    | none => none
    | some (mo, r2) =>
      match takeDigits 2 r2 with
      | none => none
      | some (d, r3) =>
        match r3 with
        | [] => some (y, mo, d, 0, 0, 0, false)
        | c :: r4 =>
          if c = 'T' then
            match takeDigits 2 r4 with
            | none => none
            | some (h, r5) =>
              match takeDigits 2 r5 with
              | none => none
              | some (mi, r6) =>
                match takeDigits 2 r6 with
                | none => none
                | some (sec, r7) =>
                  match r7 with
                  | [] => some (y, mo, d, h, mi, sec, false)
                  | cz :: r8 =>
                    if cz = 'Z' ∧ r8 = [] then some (y, mo, d, h, mi, sec, true)
                    else none
          else none

/-- `parseICalDate` from `src/ical.ts`.  `none` is `null`; a thrown
`Intl` `RangeError` (`db tz = none`) is caught, warned and falls through to
the UTC fallback; a JavaScript empty string is falsy, hence the
`tz.data.isEmpty` guards modelling `if (effectiveTzid)`. -/
def parseICalDate (db : TzDb) (value : String) (tzid : Option String)
    (isDateOnly : Bool) (defaultTimeZone : Option String) : Option Int :=
  let dateOnly := isDateOnly || !(value.data.any (fun c => c = 'T'))
  match icalDateFields value.data with
  | none => none
  | some (y, mo, d, h, mi, sec, z) =>
    let year : Int := y
    let month : Int := (mo : Int) - 1
    let day : Int := d
    let hour : Int := if dateOnly then 0 else (h : Int)
    let minute : Int := if dateOnly then 0 else (mi : Int)
    let second : Int := if dateOnly then 0 else (sec : Int)
    if z then some (dateUTCms year month day hour minute second 0)
    else
      let effectiveTzid :=
        match tzid with
        | some t => some t
        | none => if dateOnly then defaultTimeZone else none
      match effectiveTzid with
      | some tz =>
        if tz.data.isEmpty then some (dateUTCms year month day hour minute second 0)
        else
          match db tz with
          | some zone =>
            let utcMillis := dateUTCms year month day hour minute second 0
            some (utcMillis - getOffsetMinutes zone utcMillis * 60000)
          | none => some (dateUTCms year month day hour minute second 0)
      | none => some (dateUTCms year month day hour minute second 0)

/-- `parseYmd` from `src/ical.ts`: the prefix regex
`/^(\d{4})(\d{2})(\d{2})/`. -/
def parseYmd (value : String) : Option (Int × Int × Int) :=
  match takeDigits 4 value.data with
  | none => none
  | some (y, r1) =>
    match takeDigits 2 r1 with
    | none => none
    | some (mo, r2) =>
      match takeDigits 2 r2 with
      | none => none
      | some (d, _) => some ((y : Int), (mo : Int), (d : Int))

/-- `ymdToString` from `src/ical.ts`. -/
def ymdToString (ymd : Int × Int × Int) : String :=
  toString ymd.1 ++ pad2 ymd.2.1 ++ pad2 ymd.2.2

/-- `addDaysToYmd` from `src/ical.ts`: `Date.UTC(y, m-1, d)`, `setUTCDate`,
read the UTC fields back. -/
def addDaysToYmd (ymd : Int × Int × Int) (days : Int) : Int × Int × Int :=
  let t := dateUTCms ymd.1 (ymd.2.1 - 1) ymd.2.2 0 0 0 0
  let f := msToFields t
  let t2 := dateUTCms f.year (f.month - 1) (f.day + days) 0 0 0 0
  let f2 := msToFields t2
  (f2.year, f2.month, f2.day)

/-- `String.prototype.toUpperCase` on one character (the inputs below are
ASCII, where it is the ASCII mapping). -/
def asciiUpper (c : Char) : Char :=
  if 'a' ≤ c ∧ c ≤ 'z' then Char.ofNat (c.toNat - 32) else c

def upperChars (l : List Char) : List Char := l.map asciiUpper

/-- `haystack.includes(needle)` on character lists. -/
def containsSub (pat : List Char) : List Char → Bool
  | [] => pat.isEmpty
  | c :: rest => pat.isPrefixOf (c :: rest) || containsSub pat rest

/-- First match of `/TZID=([^;:]+)/`: the capture after the first occurrence
of `TZID=` followed by at least one character other than `;`/`:` (at an
occurrence where the capture would be empty nothing matches and the scan
continues). -/
def findTzidParam : List Char → Option (List Char)
  | [] => none
  | c :: rest =>
    if ("TZID=".data).isPrefixOf (c :: rest) then
      let cap := (rest.drop 4).takeWhile (fun ch => !(ch = ';' || ch = ':'))
      if cap.isEmpty then findTzidParam rest else some cap
    else findTzidParam rest

/-- At the position right after a `[:;]`, the capture of
`/[:;](\d{8}(T\d{6}Z?)?)/` (greedy: the time part is taken whenever
present). -/
def grabDate8 (l : List Char) : Option (List Char) :=
  let d8 := l.take 8
  if d8.length = 8 ∧ d8.all Char.isDigit then
    match l.drop 8 with
    | c :: r2 =>
      if c = 'T' then
        let t6 := r2.take 6
        if t6.length = 6 ∧ t6.all Char.isDigit then
          match r2.drop 6 with
          | cz :: _ =>
            if cz = 'Z' then some (d8 ++ 'T' :: t6 ++ ['Z'])
            else some (d8 ++ 'T' :: t6)
          | [] => some (d8 ++ 'T' :: t6)
        else some d8
      else some d8
    | [] => some d8
  else none

/-- First match of `/[:;](\d{8}(T\d{6}Z?)?)/` over the whole line. -/
def findDateMatch : List Char → Option (List Char)
  | [] => none
  | c :: rest =>
    if c = ':' ∨ c = ';' then
      match grabDate8 rest with
      | some v => some v
      | none => findDateMatch rest
    else findDateMatch rest

/-- `line.split(/:(.+)/, 2)[1] ?? ""`: everything after the first `:` that
has at least one character after it, else the empty string. -/
def restAfterColon : List Char → List Char
  | [] => []
  | c :: rest => if c = ':' ∧ rest ≠ [] then rest else restAfterColon rest

/-- The `current` record of `parseEventComponents` (`end` is a Lean keyword,
hence `endOpt`). -/
structure EvCurrent where
  startOpt : Option Int
  endOpt : Option Int
  startIsDateOnly : Bool
  startYmdOpt : Option (Int × Int × Int)
  startTimeZoneOpt : Option String
deriving Repr

def evInit : EvCurrent := ⟨none, none, false, none, none⟩

/-- The `END:VEVENT` branch of `parseEventComponents`: compute the end of the
closed event and push the busy block when it lies after the start. -/
def closeEvent (db : TzDb) (cur : EvCurrent) (duration : Option Nat)
    (events : List (Int × Int)) : List (Int × Int) :=
  match cur.startOpt with
  | none => events
  | some start =>
    let isAllDay := cur.startIsDateOnly
    let computedAllDayEnd :=
      match cur.startYmdOpt, cur.startTimeZoneOpt with
      | some ymd, some tz =>
        if tz.data.isEmpty then start + DAY_MS
        else
          match parseICalDate db (ymdToString (addDaysToYmd ymd 1)) (some tz) true none with
          | some e => e
          | none => start + DAY_MS
      | _, _ => start + DAY_MS
    let defaultEnd := if isAllDay then computedAllDayEnd else start + 60 * 60 * 1000
    let endValue :=
      match cur.endOpt with
      | some e => e
      | none =>
        match duration with
        | some dur => start + (dur : Int)
        | none => defaultEnd
    let e := if isAllDay ∧ endValue = start then computedAllDayEnd else endValue
    if start < e then events ++ [(start, e)] else events

/-- One iteration of the `for (const line of unfolded)` loop of
`parseEventComponents`; the state is `(inEvent, current, currentDuration,
events)`. -/
def evStep (db : TzDb) (defaultTimeZone : Option String)
    (st : Bool × EvCurrent × Option Nat × List (Int × Int)) (line : String) :
    Bool × EvCurrent × Option Nat × List (Int × Int) :=
  let inEvent := st.1
  let cur := st.2.1
  let duration := st.2.2.1
  let events := st.2.2.2
  let l := line.data
  let upper := upperChars l
  if upper = "BEGIN:VEVENT".data then (true, evInit, none, events)
  else if upper = "END:VEVENT".data then
    (false, cur, none, if inEvent then closeEvent db cur duration events else events)
  else if !inEvent then st
  else if ("DTSTART".data).isPrefixOf upper then
    let tzidMatch := findTzidParam l
    let isDateOnly := containsSub "VALUE=DATE".data upper || !(l.any (fun c => c = 'T'))
    match findDateMatch l with
    | none => st
    | some dv =>
      match parseICalDate db (String.mk dv) (tzidMatch.map (fun t => String.mk t))
          isDateOnly defaultTimeZone with
      | none => st
      | some parsed =>
        let cur2 := { cur with startOpt := some parsed, startIsDateOnly := isDateOnly }
        let cur3 :=
          if isDateOnly then
            { cur2 with
              startYmdOpt := parseYmd (String.mk dv)
              startTimeZoneOpt :=
                match tzidMatch with
                | some t => some (String.mk t)
                | none => defaultTimeZone }
          else cur2
        (inEvent, cur3, duration, events)
  else if ("DTEND".data).isPrefixOf upper then
    let tzidMatch := findTzidParam l
    let isDateOnly := containsSub "VALUE=DATE".data upper || !(l.any (fun c => c = 'T'))
    match findDateMatch l with
    | none => st
    | some dv =>
      match parseICalDate db (String.mk dv) (tzidMatch.map (fun t => String.mk t))
          isDateOnly defaultTimeZone with
      | none => st
      | some parsed => (inEvent, { cur with endOpt := some parsed }, duration, events)
  else if ("DURATION".data).isPrefixOf upper then
    match parseDuration (String.mk (restAfterColon l)) with
    | some dur => (inEvent, cur, some dur, events)
    | none => st
  else st

/-- `parseEventComponents` from `src/ical.ts`. -/
def parseEventComponents (db : TzDb) (unfolded : List String)
    (defaultTimeZone : Option String) : List (Int × Int) :=
  (unfolded.foldl (evStep db defaultTimeZone) (false, evInit, none, [])).2.2.2

/-! ## The current interval resolver, modelled from the spec

The current revision of `src/ical.ts` — the one exercised by
`src/test/ical.test.ts` and imported by `src/index.ts` (producing
`BusyInterval` values with `startMsUtc`/`endMsUtc`/`kind`, resolving `±HHMM`
offsets and floating date-times, and throwing `unsupported_tzid` on a bad
explicit `TZID`) — is not present in the snapshot.  The definitions below
model that resolver from the spec (§4.4 Event Extractor, §4.5 Interval
Resolver, §9 failure table); the Zoned Time Utility it delegates to is the
`src/time.ts` code embedded above. -/

/-- Modelled from the spec: the timezone context of a date-time value —
floating, UTC-marked (`Z`), or a fixed numeric offset `±HHMM` (`sign` is
`+1`/`−1`, `oh`/`om` the offset hour and minute digits). -/
inductive TzSuffix where
  | floating
  | utc
  | offset (sign : Int) (oh om : Nat)
deriving DecidableEq, Repr

/-- Modelled from the spec: the date/time value grammar of the Interval
Resolver — `YYYYMMDD`, optionally `THHMMSS` followed by nothing (floating),
`Z` (UTC), or `±HHMM` (fixed numeric offset). -/
def icalValueSpec (l : List Char) :
    Option (Int × Int × Int × Option (Int × Int × Int × TzSuffix)) :=
  match takeDigits 4 l with
  | none => none
  | some (y, r1) =>
    match takeDigits 2 r1 with
    | none => none
    | some (mo, r2) =>
      match takeDigits 2 r2 with
      | none => none
      | some (d, r3) =>
        match r3 with
        | [] => some ((y : Int), (mo : Int), (d : Int), none)
        | c :: r4 =>
          if c = 'T' then
            match takeDigits 2 r4 with
            | none => none
            | some (h, r5) =>
              match takeDigits 2 r5 with
              | none => none
              | some (mi, r6) =>
                match takeDigits 2 r6 with
                | none => none
                | some (sec, r7) =>
                  match r7 with
                  | [] =>
                    some ((y : Int), (mo : Int), (d : Int),
                      some ((h : Int), (mi : Int), (sec : Int), TzSuffix.floating))
                  | cz :: r8 =>
                    if cz = 'Z' ∧ r8 = [] then
                      some ((y : Int), (mo : Int), (d : Int),
                        some ((h : Int), (mi : Int), (sec : Int), TzSuffix.utc))
                    else if cz = '+' ∨ cz = '-' then
                      match takeDigits 2 r8 with
                      | none => none
                      | some (oh, r9) =>
                        match takeDigits 2 r9 with
                        | none => none
                        | some (om, r10) =>
                          if r10 = [] then
                            some ((y : Int), (mo : Int), (d : Int),
                              some ((h : Int), (mi : Int), (sec : Int),
                                TzSuffix.offset (if cz = '+' then 1 else -1) oh om))
                          else none
                    else none
          else none

/-- Modelled from the spec: all-day resolution (§4.5 first bullet and the §9
table).  The owner-local midnight of the date, via the Zoned Time Utility, in
the explicitly named zone when a `TZID` is present — an unsupported explicit
zone aborts the whole parse — else in the owner/default zone; an absent or
invalid owner/default zone fails the field (warned and dropped). -/
def allDayResolveSpec (db : TzDb) (y mo d : Int) (tzid : Option String)
    (defaultTimeZone : Option String) : Except String (Option Int) :=
  match tzid with
  | some t =>
    match db t with
    | some zone => Except.ok (some (utcMillisFromZonedLocal y mo d 0 0 zone))
    | none => Except.error ("unsupported_tzid: " ++ t)
  | none =>
    match defaultTimeZone with
    | some dtz =>
      match db dtz with
      | some zone => Except.ok (some (utcMillisFromZonedLocal y mo d 0 0 zone))
      | none => Except.ok none
    | none => Except.ok none

/-- Modelled from the spec: the Interval Resolver (§4.5), the current
`parseICalDate`.  `Except.error` is the hard failure aborting the whole
parse; `Except.ok none` fails only this field.  A value outside the grammar
fails the field; all-day (date-only flag or no time part) resolves to
owner-local midnight; `Z` is UTC directly, any `TZID` ignored; `±HHMM` with
hour 0–23 and minute 0–59 is direct offset arithmetic (no timezone lookup),
out-of-range offsets fail the field; floating uses the explicit `TZID` via
the Zoned Time Utility (unsupported explicit zone: hard failure), else the
owner/default zone when supplied and valid, else UTC. -/
def parseICalDateSpec (db : TzDb) (value : String) (tzid : Option String)
    (isDateOnly : Bool) (defaultTimeZone : Option String) :
    Except String (Option Int) :=
  match icalValueSpec value.data with
  | none => Except.ok none
  | some (y, mo, d, time) =>
    match time with
    | none => allDayResolveSpec db y mo d tzid defaultTimeZone
    | some (h, mi, sec, sfx) =>
      if isDateOnly then allDayResolveSpec db y mo d tzid defaultTimeZone
      else
        match sfx with
        | TzSuffix.utc => Except.ok (some (dateUTCms y (mo - 1) d h mi sec 0))
        | TzSuffix.offset sign oh om =>
          if oh ≤ 23 ∧ om ≤ 59 then
            Except.ok (some (dateUTCms y (mo - 1) d h mi sec 0
              - sign * ((oh : Int) * 60 + (om : Int)) * 60000))
          else Except.ok none
        | TzSuffix.floating =>
          match tzid with
          | some t =>
            match db t with
            | some zone =>
              Except.ok (some (localDateTimeToUtcMillis ⟨y, mo, d, h, mi, sec⟩ 0 zone))
            | none => Except.error ("unsupported_tzid: " ++ t)
          | none =>
            match defaultTimeZone with
            | some dtz =>
              match db dtz with
              | some zone =>
                Except.ok (some (localDateTimeToUtcMillis ⟨y, mo, d, h, mi, sec⟩ 0 zone))
              | none => Except.ok (some (dateUTCms y (mo - 1) d h mi sec 0))
            | none => Except.ok (some (dateUTCms y (mo - 1) d h mi sec 0))

/-- Modelled from the spec: the `current` record of the Event Extractor
(§4.4) — resolved start, resolved end, the all-day flag, and for all-day
starts the local date and its resolved zone (for the owner-local next
midnight). -/
structure EvCurrentSpec where
  startOpt : Option Int
  endOpt : Option Int
  startIsDateOnly : Bool
  startYmdOpt : Option (Int × Int × Int)
  startZoneOpt : Option Zone

def evInitSpec : EvCurrentSpec := ⟨none, none, false, none, none⟩

/-- Modelled from the spec: closing a `VEVENT` block (§4.4).  End resolution
in order: explicit `DTEND`; `DTSTART + DURATION`; default — next owner-local
midnight for all-day (start + 24h when the local date or zone is unknown),
one hour for timed.  An all-day end equal to the start is corrected to
start + 1 owner-local day.  The block is kept only when the end is after the
start. -/
def closeEventSpec (cur : EvCurrentSpec) (duration : Option Nat)
    (events : List BusyInterval) : List BusyInterval :=
  match cur.startOpt with
  | none => events
  | some start =>
    let isAllDay := cur.startIsDateOnly
    let computedAllDayEnd :=
      match cur.startYmdOpt, cur.startZoneOpt with
      | some ymd, some zone =>
        utcMillisFromZonedLocal (addDaysToYmd ymd 1).1 (addDaysToYmd ymd 1).2.1
          (addDaysToYmd ymd 1).2.2 0 0 zone
      | _, _ => start + DAY_MS
    let defaultEnd := if isAllDay then computedAllDayEnd else start + 60 * 60 * 1000
    let endValue :=
      match cur.endOpt with
      | some e => e
      | none =>
        match duration with
        | some dur => start + (dur : Int)
        | none => defaultEnd
    let e := if isAllDay ∧ endValue = start then computedAllDayEnd else endValue
    if start < e then
      events ++ [{ startMsUtc := start, endMsUtc := e
                   kind := if isAllDay then BusyKind.allDay else BusyKind.time }]
    else events

/-- Modelled from the spec: one line of the Event Extractor scan (§4.4), over
the state `(inEvent, current, currentDuration, events)`; a hard failure from
the Interval Resolver aborts the scan and is final. -/
def evStepSpec (db : TzDb) (defaultTimeZone : Option String)
    (st : Except String (Bool × EvCurrentSpec × Option Nat × List BusyInterval))
    (line : String) :
    Except String (Bool × EvCurrentSpec × Option Nat × List BusyInterval) :=
  match st with
  | Except.error e => Except.error e
  | Except.ok (inEvent, cur, duration, events) =>
    let l := line.data
    let upper := upperChars l
    if upper = "BEGIN:VEVENT".data then Except.ok (true, evInitSpec, none, events)
    else if upper = "END:VEVENT".data then
      Except.ok (false, cur, none,
        if inEvent then closeEventSpec cur duration events else events)
    else if !inEvent then st
    else if ("DTSTART".data).isPrefixOf upper then
      let tzidMatch := (findTzidParam l).map (fun t => String.mk t)
      let isDateOnly := containsSub "VALUE=DATE".data upper
        || !(l.any (fun c => c = 'T'))
      match findDateMatch l with
      | none => st
      | some dv =>
        match parseICalDateSpec db (String.mk dv) tzidMatch isDateOnly defaultTimeZone with
        | Except.error e => Except.error e
        | Except.ok none => st
        | Except.ok (some parsed) =>
          let startZone :=
            match tzidMatch with
            | some t => db t
            | none =>
              match defaultTimeZone with
              | some dtz => db dtz
              | none => none
          let cur2 := { cur with startOpt := some parsed, startIsDateOnly := isDateOnly }
          let cur3 :=
            if isDateOnly then
              { cur2 with startYmdOpt := parseYmd (String.mk dv), startZoneOpt := startZone }
            else cur2
          Except.ok (inEvent, cur3, duration, events)
    else if ("DTEND".data).isPrefixOf upper then
      let tzidMatch := (findTzidParam l).map (fun t => String.mk t)
      let isDateOnly := containsSub "VALUE=DATE".data upper
        || !(l.any (fun c => c = 'T'))
      match findDateMatch l with
      | none => st
      | some dv =>
        match parseICalDateSpec db (String.mk dv) tzidMatch isDateOnly defaultTimeZone with
        | Except.error e => Except.error e
        | Except.ok none => st
        | Except.ok (some parsed) =>
          Except.ok (inEvent, { cur with endOpt := some parsed }, duration, events)
    else if ("DURATION".data).isPrefixOf upper then
      match parseDuration (String.mk (restAfterColon l)) with
      | some dur => Except.ok (inEvent, cur, some dur, events)
      | none => st
    else st

/-- Modelled from the spec: the Event Extractor (§4.4), the current
`parseEventComponents` — the whole-feed hard failure surfaces as
`Except.error`, so an aborted parse yields no busy blocks and the caller
sees the failure. -/
def parseEventComponentsSpec (db : TzDb) (unfolded : List String)
    (defaultTimeZone : Option String) : Except String (List BusyInterval) :=
  match unfolded.foldl (evStepSpec db defaultTimeZone)
      (Except.ok (false, evInitSpec, none, [])) with
  | Except.error e => Except.error e
  | Except.ok st => Except.ok st.2.2.2

instance {e a : Type} [DecidableEq e] [DecidableEq a] :
    DecidableEq (Except e a) := fun x y =>
  match x, y with
  | Except.error e1, Except.error e2 =>
      if h : e1 = e2 then isTrue (by rw [h])
      else isFalse (fun hc => h (by injection hc))
  | Except.error _, Except.ok _ => isFalse (fun hc => Except.noConfusion hc)
  | Except.ok _, Except.error _ => isFalse (fun hc => Except.noConfusion hc)
  | Except.ok v1, Except.ok v2 =>
      if h : v1 = v2 then isTrue (by rw [h])
      else isFalse (fun hc => h (by injection hc))

/-- A fixed-width all-digit field of a date/time value. -/
def DigitList (n : Nat) (l : List Char) : Prop :=
  l.length = n ∧ l.all Char.isDigit = true

instance (n : Nat) (l : List Char) : Decidable (DigitList n l) :=
  inferInstanceAs (Decidable (_ ∧ _))

/-! ## Invariants of `clipAndMerge` -/

/-- An interval lies strictly inside the half-open window. -/
def InBounds (ws we : Int) (b : BusyInterval) : Prop :=
  ws ≤ b.startMsUtc ∧ b.startMsUtc < b.endMsUtc ∧ b.endMsUtc ≤ we

/-- Consecutive intervals are separated by a positive gap. -/
def Gapped (a b : BusyInterval) : Prop := a.endMsUtc < b.startMsUtc

instance (a b : BusyInterval) : Decidable (Gapped a b) :=
  inferInstanceAs (Decidable (a.endMsUtc < b.startMsUtc))

instance (ws we : Int) (b : BusyInterval) : Decidable (InBounds ws we b) :=
  inferInstanceAs (Decidable (_ ∧ _ ∧ _))


lemma keepInterval_iff (ws we : Int) (i : BusyInterval) :
    keepInterval ws we i = true ↔
      i.startMsUtc < i.endMsUtc ∧ ws < i.endMsUtc ∧ i.startMsUtc < we := by
  simp [keepInterval, and_assoc]

lemma relevant_inBounds (xs : List BusyInterval) (ws we : Int) (i : BusyInterval)
    (h : i ∈ (xs.map (clipInterval ws we)).filter (keepInterval ws we)) :
    InBounds ws we i := by
  rw [List.mem_filter] at h
  obtain ⟨hmem, hkeep⟩ := h
  rw [keepInterval_iff] at hkeep
  rw [List.mem_map] at hmem
  obtain ⟨j, _, rfl⟩ := hmem
  refine ⟨le_max_right _ _, hkeep.1, min_le_right _ _⟩

lemma insertByStart_perm (x : BusyInterval) (l : List BusyInterval) :
    (insertByStart x l).Perm (x :: l) := by
  induction l with
  | nil => simp [insertByStart]
  | cons y l ih =>
      by_cases h : x.startMsUtc < y.startMsUtc
      · simp [insertByStart, h]
      · simp only [insertByStart, if_neg h]
        exact (ih.cons y).trans (List.Perm.swap x y l)

lemma sortByStart_perm (l : List BusyInterval) : (sortByStart l).Perm l := by
  induction l with
  | nil => simp [sortByStart]
  | cons x l ih =>
      exact ((insertByStart_perm x (sortByStart l)).trans (ih.cons x))

lemma mem_sortByStart {l : List BusyInterval} {i : BusyInterval} :
    i ∈ sortByStart l ↔ i ∈ l :=
  (sortByStart_perm l).mem_iff

/-- Invariant of the merge sweep.  The accumulator is the output list in
reverse, so the gap chain runs backwards. -/
lemma foldl_mergeStep_inv (ws we : Int) :
    ∀ (l acc : List BusyInterval),
      (∀ b ∈ l, InBounds ws we b) →
      (∀ b ∈ acc, InBounds ws we b) →
      List.Chain' (fun a b => Gapped b a) acc →
      (∀ b ∈ l.foldl mergeStep acc, InBounds ws we b) ∧
        List.Chain' (fun a b => Gapped b a) (l.foldl mergeStep acc) := by
  intro l
  induction l with
  | nil => intro acc _ hacc hch; exact ⟨hacc, hch⟩
  | cons x l ih =>
      intro acc hl hacc hch
      have hx : InBounds ws we x := hl x (List.mem_cons_self x l)
      have hl' : ∀ b ∈ l, InBounds ws we b := fun b hb => hl b (List.mem_cons_of_mem x hb)
      simp only [List.foldl_cons]
      cases acc with
      | nil =>
          exact ih [x] hl' (by intro b hb; rw [List.mem_singleton] at hb; exact hb ▸ hx)
            (List.chain'_singleton x)
      | cons last rest =>
          by_cases hmerge : x.startMsUtc ≤ last.endMsUtc
          · have hlast : InBounds ws we last := hacc last (List.mem_cons_self last rest)
            have hrest : ∀ b ∈ rest, InBounds ws we b :=
              fun b hb => hacc b (List.mem_cons_of_mem last hb)
            set last' : BusyInterval :=
              { startMsUtc := last.startMsUtc
                endMsUtc := max last.endMsUtc x.endMsUtc
                kind := if last.kind = BusyKind.time ∧ x.kind = BusyKind.allDay
                        then BusyKind.allDay else last.kind } with hlast'
            have hstep : mergeStep (last :: rest) x = last' :: rest := by
              simp [mergeStep, mergedCell, hmerge, hlast']
            rw [hstep]
            refine ih (last' :: rest) hl' ?_ ?_
            · intro b hb
              rcases List.mem_cons.mp hb with rfl | hb
              · exact ⟨hlast.1, lt_of_lt_of_le hlast.2.1 (le_max_left _ _),
                  max_le hlast.2.2 hx.2.2⟩
              · exact hrest b hb
            · cases rest with
              | nil => exact List.chain'_singleton last'
              | cons r rs =>
                  have := hch
                  rw [List.chain'_cons] at this
                  exact List.chain'_cons.mpr ⟨this.1, this.2⟩
          · have hstep : mergeStep (last :: rest) x = x :: last :: rest := by
              simp [mergeStep, hmerge]
            rw [hstep]
            refine ih (x :: last :: rest) hl' ?_ ?_
            · intro b hb
              rcases List.mem_cons.mp hb with rfl | hb
              · exact hx
              · exact hacc b hb
            · exact List.chain'_cons.mpr ⟨lt_of_not_le hmerge, hch⟩

/-- The two main invariants of `clipAndMerge`, shared by several theorems. -/
lemma clipAndMerge_inv (xs : List BusyInterval) (ws we : Int) :
    (∀ b ∈ clipAndMerge xs ws we, InBounds ws we b) ∧
      List.Chain' Gapped (clipAndMerge xs ws we) := by
  unfold clipAndMerge
  have hrel : ∀ b ∈ sortByStart ((xs.map (clipInterval ws we)).filter (keepInterval ws we)),
      InBounds ws we b := by
    intro b hb
    exact relevant_inBounds xs ws we b (mem_sortByStart.mp hb)
  have h := foldl_mergeStep_inv ws we
    (sortByStart ((xs.map (clipInterval ws we)).filter (keepInterval ws we))) [] hrel
    (by intro b hb; simp at hb) List.chain'_nil
  constructor
  · intro b hb
    exact h.1 b (List.mem_reverse.mp hb)
  · rw [List.chain'_reverse]
    exact h.2

lemma chain_gap_implies_start_sorted :
    ∀ (l : List BusyInterval), (∀ b ∈ l, b.startMsUtc < b.endMsUtc) →
      List.Chain' Gapped l →
      List.Chain' (fun a b => a.startMsUtc < b.startMsUtc) l := by
  intro l
  induction l with
  | nil => intro _ _; exact List.chain'_nil
  | cons x l ih =>
      intro hmem hch
      cases l with
      | nil => exact List.chain'_singleton x
      | cons y ys =>
          rw [List.chain'_cons] at hch ⊢
          refine ⟨lt_trans (hmem x (by simp)) hch.1, ih ?_ hch.2⟩
          intro b hb
          exact hmem b (List.mem_cons_of_mem x hb)

lemma clip_eq_self_of_inBounds {ws we : Int} {b : BusyInterval} (h : InBounds ws we b) :
    clipInterval ws we b = b := by
  obtain ⟨h1, h2, h3⟩ := h
  simp only [clipInterval, max_eq_left h1, min_eq_left h3]

lemma map_clip_eq_self (ws we : Int) :
    ∀ (l : List BusyInterval), (∀ b ∈ l, InBounds ws we b) →
      l.map (clipInterval ws we) = l := by
  intro l
  induction l with
  | nil => intro _; rfl
  | cons x l ih =>
      intro h
      simp only [List.map_cons]
      rw [clip_eq_self_of_inBounds (h x (List.mem_cons_self x l)),
        ih (fun b hb => h b (List.mem_cons_of_mem x hb))]

lemma filter_keep_eq_self (ws we : Int) (l : List BusyInterval)
    (h : ∀ b ∈ l, InBounds ws we b) : l.filter (keepInterval ws we) = l := by
  rw [List.filter_eq_self]
  intro b hb
  obtain ⟨h1, h2, h3⟩ := h b hb
  rw [keepInterval_iff]
  exact ⟨h2, lt_of_le_of_lt h1 h2, lt_of_lt_of_le h2 h3⟩

lemma sortByStart_eq_self :
    ∀ (l : List BusyInterval),
      List.Chain' (fun a b => a.startMsUtc < b.startMsUtc) l → sortByStart l = l := by
  intro l
  induction l with
  | nil => intro _; rfl
  | cons x l ih =>
      intro hch
      have htail : List.Chain' (fun a b => a.startMsUtc < b.startMsUtc) l :=
        (List.chain'_cons'.mp hch).2
      simp only [sortByStart]
      rw [ih htail]
      cases l with
      | nil => rfl
      | cons y ys =>
          have hxy : x.startMsUtc < y.startMsUtc := (List.chain'_cons.mp hch).1
          simp [insertByStart, hxy]

lemma foldl_mergeStep_of_gapped :
    ∀ (l acc : List BusyInterval), List.Chain' Gapped l →
      (∀ a x, acc.head? = some a → l.head? = some x → Gapped a x) →
      l.foldl mergeStep acc = l.reverse ++ acc := by
  intro l
  induction l with
  | nil => intro acc _ _; rfl
  | cons x xs ih =>
      intro acc hch hhead
      have hchtail : List.Chain' Gapped xs := (List.chain'_cons'.mp hch).2
      have hheadtail : ∀ a y, ([x] : List BusyInterval).head? = some a →
          xs.head? = some y → Gapped a y := by
        intro a y ha hy
        simp only [List.head?_cons, Option.some.injEq] at ha
        subst ha
        cases xs with
        | nil => simp at hy
        | cons y0 ys =>
            simp only [List.head?_cons, Option.some.injEq] at hy
            subst hy
            exact (List.chain'_cons.mp hch).1
      simp only [List.foldl_cons]
      cases acc with
      | nil =>
          have h0 : mergeStep [] x = [x] := rfl
          rw [h0, ih [x] hchtail hheadtail, List.reverse_cons, List.append_assoc]
          rfl
      | cons a rest =>
          have hgap : Gapped a x := hhead a x rfl rfl
          have hstep : mergeStep (a :: rest) x = x :: a :: rest := by
            simp only [mergeStep, if_neg (not_le_of_lt hgap)]
          rw [hstep]
          have hheadtail2 : ∀ b y, (x :: a :: rest).head? = some b →
              xs.head? = some y → Gapped b y := by
            intro b y hb hy
            simp only [List.head?_cons, Option.some.injEq] at hb
            subst hb
            cases xs with
            | nil => simp at hy
            | cons y0 ys =>
                simp only [List.head?_cons, Option.some.injEq] at hy
                subst hy
                exact (List.chain'_cons.mp hch).1
          rw [ih (x :: a :: rest) hchtail hheadtail2, List.reverse_cons, List.append_assoc]
          rfl

/-- Any gapped, in-window list is a fixed point of `clipAndMerge`. -/
lemma clipAndMerge_eq_self (l : List BusyInterval) (ws we : Int)
    (hb : ∀ b ∈ l, InBounds ws we b) (hch : List.Chain' Gapped l) :
    clipAndMerge l ws we = l := by
  show ((sortByStart ((l.map (clipInterval ws we)).filter (keepInterval ws we))).foldl
      mergeStep []).reverse = l
  rw [map_clip_eq_self ws we l hb, filter_keep_eq_self ws we l hb,
    sortByStart_eq_self l (chain_gap_implies_start_sorted l (fun b hbm => (hb b hbm).2.1) hch),
    foldl_mergeStep_of_gapped l [] hch (by intro a x ha _; simp at ha),
    List.append_nil, List.reverse_reverse]

/-! ## Lemmas about the explicit heap -/

lemma cellAt_cons_succ (a : BusyInterval) (l : List BusyInterval) (n : Nat) :
    cellAt (a :: l) (n + 1) = cellAt l n := rfl

lemma cellAt_append_left : ∀ (h t : List BusyInterval) (i : Nat), i < h.length →
    cellAt (h ++ t) i = cellAt h i := by
  intro h
  induction h with
  | nil => intro t i hi; simp at hi
  | cons a h ih =>
      intro t i hi
      cases i with
      | zero => rfl
      | succ n =>
          rw [List.cons_append, cellAt_cons_succ, cellAt_cons_succ]
          exact ih t n (by simpa using hi)

lemma cellAt_append_right_self : ∀ (h : List BusyInterval) (c : BusyInterval)
    (t : List BusyInterval), cellAt (h ++ c :: t) h.length = c := by
  intro h
  induction h with
  | nil => intro c t; rfl
  | cons a h ih =>
      intro c t
      rw [List.cons_append, List.length_cons, cellAt_cons_succ]
      exact ih c t

lemma cellAt_set_self : ∀ (h : List BusyInterval) (i : Nat) (v : BusyInterval),
    i < h.length → cellAt (h.set i v) i = v := by
  intro h
  induction h with
  | nil => intro i v hi; simp at hi
  | cons a h ih =>
      intro i v hi
      cases i with
      | zero => rfl
      | succ n =>
          rw [List.set_cons_succ, cellAt_cons_succ]
          exact ih n v (by simpa using hi)

lemma cellAt_set_ne : ∀ (h : List BusyInterval) (i j : Nat) (v : BusyInterval),
    i ≠ j → cellAt (h.set i v) j = cellAt h j := by
  intro h
  induction h with
  | nil => intro i j v _; rfl
  | cons a h ih =>
      intro i j v hne
      cases i with
      | zero =>
          cases j with
          | zero => exact absurd rfl hne
          | succ m => rfl
      | succ n =>
          cases j with
          | zero => rfl
          | succ m =>
              rw [List.set_cons_succ, cellAt_cons_succ, cellAt_cons_succ]
              exact ih n m v (fun hc => hne (by rw [hc]))

lemma map_congr_mem {α β : Type} (l : List α) (f g : α → β)
    (h : ∀ a ∈ l, f a = g a) : l.map f = l.map g := by
  induction l with
  | nil => rfl
  | cons a l ih =>
      simp only [List.map_cons]
      rw [h a (List.mem_cons_self a l), ih (fun b hb => h b (List.mem_cons_of_mem a hb))]

lemma allocClipped_spec (ws we : Int) :
    ∀ (input : List Nat) (heap : List BusyInterval),
      (∀ i ∈ input, i < heap.length) →
      (allocClipped ws we heap input).1
          = heap ++ input.map (fun i => clipInterval ws we (cellAt heap i)) ∧
        (allocClipped ws we heap input).2.map (fun j => cellAt (allocClipped ws we heap input).1 j)
          = input.map (fun i => clipInterval ws we (cellAt heap i)) ∧
        ∀ j ∈ (allocClipped ws we heap input).2,
          heap.length ≤ j ∧ j < (allocClipped ws we heap input).1.length := by
  intro input
  induction input with
  | nil =>
      intro heap _
      refine ⟨by simp [allocClipped], by simp [allocClipped], by simp [allocClipped]⟩
  | cons i is ih =>
      intro heap hin
      have hi : i < heap.length := hin i (List.mem_cons_self i is)
      set c := clipInterval ws we (cellAt heap i) with hc
      have hin' : ∀ j ∈ is, j < (heap ++ [c]).length := by
        intro j hj
        have := hin j (List.mem_cons_of_mem i hj)
        simp only [List.length_append, List.length_cons, List.length_nil]
        omega
      obtain ⟨e1, e2, e3⟩ := ih (heap ++ [c]) hin'
      have hstep1 : (allocClipped ws we heap (i :: is)).1 = (allocClipped ws we (heap ++ [c]) is).1 := rfl
      have hstep2 : (allocClipped ws we heap (i :: is)).2
          = heap.length :: (allocClipped ws we (heap ++ [c]) is).2 := rfl
      have hmapIs : is.map (fun j => clipInterval ws we (cellAt (heap ++ [c]) j))
          = is.map (fun j => clipInterval ws we (cellAt heap j)) := by
        refine map_congr_mem is _ _ ?_
        intro j hj
        rw [cellAt_append_left heap [c] j (hin j (List.mem_cons_of_mem i hj))]
      refine ⟨?_, ?_, ?_⟩
      · rw [hstep1, e1, hmapIs, List.append_assoc]
        rfl
      · rw [hstep1, hstep2, List.map_cons]
        have hcell : cellAt (allocClipped ws we (heap ++ [c]) is).1 heap.length = c := by
          rw [e1, hmapIs, List.append_assoc, List.singleton_append]
          exact cellAt_append_right_self heap c _
        rw [hcell, List.map_cons]
        rw [e2, hmapIs]
      · intro j hj
        rw [hstep2] at hj
        rw [hstep1]
        rcases List.mem_cons.mp hj with rfl | hj2
        · constructor
          · exact le_refl _
          · rw [e1]
            simp only [List.length_append, List.length_cons, List.length_nil, List.length_map]
            omega
        · have := e3 j hj2
          constructor
          · calc heap.length ≤ (heap ++ [c]).length := by simp
              _ ≤ j := this.1
          · exact this.2

lemma map_filter_comm {α β : Type} (f : α → β) (p : β → Bool) :
    ∀ l : List α, (l.filter (fun a => p (f a))).map f = (l.map f).filter p := by
  intro l
  induction l with
  | nil => rfl
  | cons a l ih =>
      by_cases h : p (f a)
      · simp [List.filter_cons, h, ih]
      · simp [List.filter_cons, h, ih]

lemma insertIdByStart_deref (h : List BusyInterval) (x : Nat) :
    ∀ l : List Nat, (insertIdByStart h x l).map (fun i => cellAt h i)
      = insertByStart (cellAt h x) (l.map (fun i => cellAt h i)) := by
  intro l
  induction l with
  | nil => rfl
  | cons y l ih =>
      by_cases hc : (cellAt h x).startMsUtc < (cellAt h y).startMsUtc
      · simp [insertIdByStart, insertByStart, hc]
      · simp [insertIdByStart, insertByStart, hc, ih]

lemma sortIdsByStart_deref (h : List BusyInterval) :
    ∀ l : List Nat, (sortIdsByStart h l).map (fun i => cellAt h i)
      = sortByStart (l.map (fun i => cellAt h i)) := by
  intro l
  induction l with
  | nil => rfl
  | cons x l ih =>
      simp only [sortIdsByStart, sortByStart, insertIdByStart_deref, ih, List.map_cons]

lemma mem_insertIdByStart (h : List BusyInterval) (x : Nat) :
    ∀ (l : List Nat) (j : Nat), j ∈ insertIdByStart h x l ↔ j = x ∨ j ∈ l := by
  intro l
  induction l with
  | nil => intro j; simp [insertIdByStart]
  | cons y l ih =>
      intro j
      by_cases hc : (cellAt h x).startMsUtc < (cellAt h y).startMsUtc
      · simp [insertIdByStart, hc]
      · simp only [insertIdByStart, if_neg hc, List.mem_cons, ih]
        tauto

lemma mem_sortIdsByStart (h : List BusyInterval) :
    ∀ (l : List Nat) (j : Nat), j ∈ sortIdsByStart h l ↔ j ∈ l := by
  intro l
  induction l with
  | nil => intro j; simp [sortIdsByStart]
  | cons x l ih =>
      intro j
      simp only [sortIdsByStart, mem_insertIdByStart, ih, List.mem_cons]

lemma chain_lt_head : ∀ (x : Nat) (l : List Nat),
    List.Chain' (fun a b => b < a) (x :: l) → ∀ j ∈ l, j < x := by
  intro x l
  induction l generalizing x with
  | nil => intro _ j hj; simp at hj
  | cons y l ih =>
      intro hch j hj
      have hyx : y < x := (List.chain'_cons.mp hch).1
      rcases List.mem_cons.mp hj with rfl | hj2
      · exact hyx
      · exact lt_trans (ih y (List.chain'_cons.mp hch).2 j hj2) hyx

/-- Simulation of the merge sweep over the explicit heap: the original cells
below `n1` (the heap size after the `.map` phase, which includes every input
cell) are never written, and the dereferenced accumulator tracks the pure
`mergeStep` fold. -/
lemma foldl_mergeStepHeap_sim (n1 : Nat) :
    ∀ (todo : List Nat) (heap : List BusyInterval) (acc : List Nat) (vals : List BusyInterval),
      (∀ i ∈ todo, i < n1) → n1 ≤ heap.length →
      (∀ j ∈ acc, n1 ≤ j ∧ j < heap.length) →
      List.Chain' (fun a b => b < a) acc →
      todo.map (fun i => cellAt heap i) = vals →
      (∀ j < n1, cellAt (todo.foldl mergeStepHeap (heap, acc)).1 j = cellAt heap j) ∧
        n1 ≤ (todo.foldl mergeStepHeap (heap, acc)).1.length ∧
        (∀ j ∈ (todo.foldl mergeStepHeap (heap, acc)).2,
          n1 ≤ j ∧ j < (todo.foldl mergeStepHeap (heap, acc)).1.length) ∧
        List.Chain' (fun a b => b < a) (todo.foldl mergeStepHeap (heap, acc)).2 ∧
        (todo.foldl mergeStepHeap (heap, acc)).2.map
            (fun i => cellAt (todo.foldl mergeStepHeap (heap, acc)).1 i)
          = vals.foldl mergeStep (acc.map (fun i => cellAt heap i)) := by
  intro todo
  induction todo with
  | nil =>
      intro heap acc vals _ hlen hacc hch hv
      subst hv
      exact ⟨fun j _ => rfl, hlen, hacc, hch, rfl⟩
  | cons i todo ih =>
      intro heap acc vals hto hlen hacc hch hv
      have hi : i < n1 := hto i (List.mem_cons_self i todo)
      have hto2 : ∀ j ∈ todo, j < n1 := fun j hj => hto j (List.mem_cons_of_mem i hj)
      rw [← hv]
      simp only [List.foldl_cons, List.map_cons]
      cases acc with
      | nil =>
          have hstep : mergeStepHeap (heap, ([] : List Nat)) i
              = (heap ++ [cellAt heap i], [heap.length]) := rfl
          rw [hstep]
          have hmap2 : todo.map (fun j => cellAt (heap ++ [cellAt heap i]) j)
              = todo.map (fun j => cellAt heap j) :=
            map_congr_mem todo _ _
              (fun j hj => cellAt_append_left heap _ j (lt_of_lt_of_le (hto2 j hj) hlen))
          obtain ⟨f1, f2, f3, f4, f5⟩ := ih (heap ++ [cellAt heap i]) [heap.length]
            (todo.map (fun j => cellAt heap j)) hto2
            (by simp only [List.length_append, List.length_cons, List.length_nil]; omega)
            (by
              intro j hj
              rw [List.mem_singleton] at hj
              subst hj
              refine ⟨hlen, ?_⟩
              simp only [List.length_append, List.length_cons, List.length_nil]
              omega)
            (List.chain'_singleton _) hmap2
          refine ⟨?_, f2, f3, f4, ?_⟩
          · intro j hj
            rw [f1 j hj]
            exact cellAt_append_left heap _ j (lt_of_lt_of_le hj hlen)
          · rw [f5]
            simp only [List.map_cons, List.map_nil,
              cellAt_append_right_self heap (cellAt heap i) []]
            rfl
      | cons lastId rest =>
          have hlast : n1 ≤ lastId ∧ lastId < heap.length :=
            hacc lastId (List.mem_cons_self lastId rest)
          have hrest : ∀ j ∈ rest, n1 ≤ j ∧ j < heap.length :=
            fun j hj => hacc j (List.mem_cons_of_mem lastId hj)
          by_cases hcond : (cellAt heap i).startMsUtc ≤ (cellAt heap lastId).endMsUtc
          · -- merge in place: write through the reference to the last output cell
            have hstep : mergeStepHeap (heap, lastId :: rest) i
                = (heap.set lastId (mergedCell (cellAt heap lastId) (cellAt heap i)),
                    lastId :: rest) := by
              simp only [mergeStepHeap]
              rw [if_pos hcond]
            rw [hstep]
            have hmap2 : todo.map (fun j =>
                  cellAt (heap.set lastId (mergedCell (cellAt heap lastId) (cellAt heap i))) j)
                = todo.map (fun j => cellAt heap j) :=
              map_congr_mem todo _ _
                (fun j hj => cellAt_set_ne heap lastId j _ (by have := hto2 j hj; omega))
            obtain ⟨f1, f2, f3, f4, f5⟩ :=
              ih (heap.set lastId (mergedCell (cellAt heap lastId) (cellAt heap i)))
                (lastId :: rest) (todo.map (fun j => cellAt heap j)) hto2
                (by rw [List.length_set]; exact hlen)
                (by
                  intro j hj
                  have := hacc j hj
                  rw [List.length_set]
                  exact this)
                hch hmap2
            refine ⟨?_, f2, f3, f4, ?_⟩
            · intro j hj
              rw [f1 j hj]
              exact cellAt_set_ne heap lastId j _ (by omega)
            · rw [f5]
              have haccmap : (lastId :: rest).map (fun j =>
                    cellAt (heap.set lastId (mergedCell (cellAt heap lastId) (cellAt heap i))) j)
                  = mergedCell (cellAt heap lastId) (cellAt heap i)
                      :: rest.map (fun j => cellAt heap j) := by
                simp only [List.map_cons]
                rw [cellAt_set_self heap lastId _ hlast.2]
                congr 1
                exact map_congr_mem rest _ _ (fun j hj =>
                  cellAt_set_ne heap lastId j _
                    (Nat.ne_of_gt (chain_lt_head lastId rest hch j hj)))
              rw [haccmap]
              have hpure : mergeStep ((lastId :: rest).map (fun j => cellAt heap j))
                    (cellAt heap i)
                  = mergedCell (cellAt heap lastId) (cellAt heap i)
                      :: rest.map (fun j => cellAt heap j) := by
                simp only [List.map_cons, mergeStep]
                rw [if_pos hcond]
              rw [hpure]
          · -- push: allocate a fresh copy of the current interval
            have hstep : mergeStepHeap (heap, lastId :: rest) i
                = (heap ++ [cellAt heap i], heap.length :: lastId :: rest) := by
              simp only [mergeStepHeap]
              rw [if_neg hcond]
            rw [hstep]
            have hmap2 : todo.map (fun j => cellAt (heap ++ [cellAt heap i]) j)
                = todo.map (fun j => cellAt heap j) :=
              map_congr_mem todo _ _
                (fun j hj => cellAt_append_left heap _ j (lt_of_lt_of_le (hto2 j hj) hlen))
            obtain ⟨f1, f2, f3, f4, f5⟩ := ih (heap ++ [cellAt heap i])
              (heap.length :: lastId :: rest)
              (todo.map (fun j => cellAt heap j)) hto2
              (by simp only [List.length_append, List.length_cons, List.length_nil]; omega)
              (by
                intro j hj
                rcases List.mem_cons.mp hj with rfl | hj2
                · refine ⟨hlen, ?_⟩
                  simp only [List.length_append, List.length_cons, List.length_nil]
                  omega
                · have := hacc j hj2
                  refine ⟨this.1, ?_⟩
                  simp only [List.length_append, List.length_cons, List.length_nil]
                  omega)
              (List.chain'_cons.mpr ⟨hlast.2, hch⟩) hmap2
            refine ⟨?_, f2, f3, f4, ?_⟩
            · intro j hj
              rw [f1 j hj]
              exact cellAt_append_left heap _ j (lt_of_lt_of_le hj hlen)
            · rw [f5]
              have haccmap : (heap.length :: lastId :: rest).map
                    (fun j => cellAt (heap ++ [cellAt heap i]) j)
                  = cellAt heap i :: (lastId :: rest).map (fun j => cellAt heap j) := by
                simp only [List.map_cons]
                rw [cellAt_append_right_self heap (cellAt heap i) []]
                rw [cellAt_append_left heap _ lastId hlast.2]
                have hrmap : rest.map (fun j => cellAt (heap ++ [cellAt heap i]) j)
                    = rest.map (fun j => cellAt heap j) :=
                  map_congr_mem rest _ _
                    (fun j hj => cellAt_append_left heap _ j (hrest j hj).2)
                rw [hrmap]
              rw [haccmap]
              have hpure : mergeStep ((lastId :: rest).map (fun j => cellAt heap j))
                    (cellAt heap i)
                  = cellAt heap i :: cellAt heap lastId
                      :: rest.map (fun j => cellAt heap j) := by
                simp only [List.map_cons, mergeStep]
                rw [if_neg hcond]
              rw [hpure]
              rfl

/-! ## Lemmas for `unfoldLines` -/

lemma splitLinesAux_noSep : ∀ (l acc : List Char), NoCRLF l →
    splitLinesAux l acc = [acc.reverse ++ l] := by
  intro l
  induction l with
  | nil => intro acc _; simp [splitLinesAux]
  | cons c l ih =>
      intro acc hno
      have hc := hno c (List.mem_cons_self c l)
      have hno2 : NoCRLF l := fun d hd => hno d (List.mem_cons_of_mem c hd)
      simp only [splitLinesAux, if_neg hc.2]
      rw [ih (c :: acc) hno2]
      simp

lemma splitLinesAux_lf : ∀ (l acc rest : List Char), NoCRLF l →
    acc.head? ≠ some '\r' →
    splitLinesAux (l ++ '\n' :: rest) acc
      = (acc.reverse ++ l) :: splitLinesAux rest [] := by
  intro l
  induction l with
  | nil =>
      intro acc rest _ hacc
      simp [splitLinesAux, if_neg hacc]
  | cons c l ih =>
      intro acc rest hno hacc
      have hc := hno c (List.mem_cons_self c l)
      have hno2 : NoCRLF l := fun d hd => hno d (List.mem_cons_of_mem c hd)
      rw [List.cons_append]
      simp only [splitLinesAux, if_neg hc.2]
      rw [ih (c :: acc) rest hno2 (by simp [hc.1])]
      simp

lemma splitLinesAux_crlf : ∀ (l acc rest : List Char), NoCRLF l →
    splitLinesAux (l ++ '\r' :: '\n' :: rest) acc
      = (acc.reverse ++ l) :: splitLinesAux rest [] := by
  intro l
  induction l with
  | nil =>
      intro acc rest _
      simp [splitLinesAux]
  | cons c l ih =>
      intro acc rest hno
      have hc := hno c (List.mem_cons_self c l)
      have hno2 : NoCRLF l := fun d hd => hno d (List.mem_cons_of_mem c hd)
      rw [List.cons_append]
      simp only [splitLinesAux, if_neg hc.2]
      rw [ih (c :: acc) rest hno2]
      simp

lemma splitLines_joinLines : ∀ (lines : List (List Char)), lines ≠ [] →
    (∀ l ∈ lines, NoCRLF l) →
    splitLinesAux (joinLines ['\r', '\n'] lines) [] = lines ∧
      splitLinesAux (joinLines ['\n'] lines) [] = lines := by
  intro lines
  induction lines with
  | nil => intro h _; exact absurd rfl h
  | cons l rest ih =>
      intro _ hno
      have hl : NoCRLF l := hno l (List.mem_cons_self l rest)
      have hno2 : ∀ m ∈ rest, NoCRLF m := fun m hm => hno m (List.mem_cons_of_mem l hm)
      cases rest with
      | nil =>
          constructor <;> · rw [joinLines, splitLinesAux_noSep l [] hl]; rfl
      | cons l2 rest2 =>
          obtain ⟨ih1, ih2⟩ := ih (by simp) hno2
          constructor
          · show splitLinesAux (l ++ ['\r', '\n'] ++ joinLines ['\r', '\n'] (l2 :: rest2)) [] = _
            rw [List.append_assoc, List.cons_append, List.cons_append, List.nil_append,
              splitLinesAux_crlf l [] _ hl, ih1]
            rfl
          · show splitLinesAux (l ++ ['\n'] ++ joinLines ['\n'] (l2 :: rest2)) [] = _
            rw [List.append_assoc, List.cons_append, List.nil_append,
              splitLinesAux_lf l [] _ hl (by simp), ih2]
            rfl

lemma foldl_unfoldStep_spec : ∀ (lines : List (List Char)) (acc : List (List Char)),
    (lines.foldl unfoldStep acc).reverse = unfoldSpecGo acc.reverse lines := by
  intro lines
  induction lines with
  | nil => intro acc; rfl
  | cons line rest ih =>
      intro acc
      rw [List.foldl_cons, ih (unfoldStep acc line)]
      cases line with
      | nil =>
          show unfoldSpecGo (trimEndChars [] :: acc).reverse rest
              = unfoldSpecGo acc.reverse ([] :: rest)
          rw [unfoldSpecGo]
          simp only [List.head?_nil, List.reverse_cons]
          rw [if_neg (by simp)]
      | cons c lrest =>
          by_cases hc : c = ' ' ∨ c = '\t'
          · cases acc with
            | nil =>
                show unfoldSpecGo (unfoldStep [] (c :: lrest)).reverse rest
                    = unfoldSpecGo [].reverse ((c :: lrest) :: rest)
                rw [unfoldSpecGo]
                simp only [List.head?_cons]
                rw [if_pos (by simpa using hc)]
                have : unfoldStep [] (c :: lrest) = [] := by
                  simp [unfoldStep, hc]
                rw [this]
                rfl
            | cons lastLine restAcc =>
                show unfoldSpecGo (unfoldStep (lastLine :: restAcc) (c :: lrest)).reverse rest
                    = unfoldSpecGo (lastLine :: restAcc).reverse ((c :: lrest) :: rest)
                rw [unfoldSpecGo]
                simp only [List.head?_cons]
                rw [if_pos (by simpa using hc)]
                have hstep : unfoldStep (lastLine :: restAcc) (c :: lrest)
                    = (lastLine ++ lrest) :: restAcc := by
                  simp [unfoldStep, hc]
                rw [hstep]
                simp only [List.reverse_cons]
                rw [List.getLast?_concat, List.dropLast_concat]
                rfl
          · show unfoldSpecGo (unfoldStep acc (c :: lrest)).reverse rest
                = unfoldSpecGo acc.reverse ((c :: lrest) :: rest)
            rw [unfoldSpecGo]
            simp only [List.head?_cons]
            rw [if_neg (by simpa using hc)]
            have hstep : unfoldStep acc (c :: lrest) = trimEndChars (c :: lrest) :: acc := by
              simp [unfoldStep, hc]
            rw [hstep]
            simp only [List.reverse_cons]

/-! ## Lemmas for `parseDuration` -/

lemma takeWhile_append_not (p : Char → Bool) (c : Char) (rest : List Char) :
    ∀ ds : List Char, (∀ x ∈ ds, p x) → p c = false →
      ((ds ++ c :: rest).takeWhile p) = ds := by
  intro ds
  induction ds with
  | nil => intro _ hc; simp [List.takeWhile_cons, hc]
  | cons d ds ih =>
      intro hds hc
      have hd : p d := hds d (List.mem_cons_self d ds)
      simp only [List.cons_append, List.takeWhile_cons, hd]
      simp [ih (fun x hx => hds x (List.mem_cons_of_mem d hx)) hc]

lemma dropWhile_append_not (p : Char → Bool) (c : Char) (rest : List Char) :
    ∀ ds : List Char, (∀ x ∈ ds, p x) → p c = false →
      ((ds ++ c :: rest).dropWhile p) = c :: rest := by
  intro ds
  induction ds with
  | nil => intro _ hc; simp [List.dropWhile_cons, hc]
  | cons d ds ih =>
      intro hds hc
      have hd : p d := hds d (List.mem_cons_self d ds)
      simp only [List.cons_append, List.dropWhile_cons, hd]
      exact ih (fun x hx => hds x (List.mem_cons_of_mem d hx)) hc

lemma mem_takeWhile_sat (p : Char → Bool) :
    ∀ (l : List Char) (a : Char), a ∈ l.takeWhile p → p a := by
  intro l
  induction l with
  | nil => intro a ha; simp at ha
  | cons c l ih =>
      intro a ha
      rw [List.takeWhile_cons] at ha
      by_cases hc : p c
      · rw [if_pos hc] at ha
        rcases List.mem_cons.mp ha with rfl | ha2
        · exact hc
        · exact ih a ha2
      · rw [if_neg hc] at ha
        simp at ha

lemma dropWhile_head_not (p : Char → Bool) :
    ∀ (l : List Char) (c : Char) (rest : List Char),
      l.dropWhile p = c :: rest → p c = false := by
  intro l
  induction l with
  | nil => intro c rest h; simp at h
  | cons d l ih =>
      intro c rest h
      rw [List.dropWhile_cons] at h
      by_cases hd : p d
      · rw [if_pos hd] at h
        exact ih c rest h
      · rw [if_neg hd] at h
        rw [List.cons.injEq] at h
        rw [← h.1]
        exact Bool.not_eq_true _ ▸ (by simpa using hd)

lemma durNum_build (ds : List Char) (c : Char) (rest : List Char)
    (hds : DigitRun ds) (hc : c.isDigit = false) :
    durNum (ds ++ c :: rest) = some (natOfDigits ds, c, rest) := by
  unfold durNum
  rw [takeWhile_append_not Char.isDigit c rest ds hds.2 hc,
    dropWhile_append_not Char.isDigit c rest ds hds.2 hc]
  have hne : ds.isEmpty = false := by
    cases ds with
    | nil => exact absurd rfl hds.1
    | cons a l => rfl
  simp [hne]

lemma durNum_inv (l : List Char) (n : Nat) (c : Char) (rest : List Char)
    (h : durNum l = some (n, c, rest)) :
    ∃ ds, DigitRun ds ∧ l = ds ++ c :: rest ∧ c.isDigit = false ∧ n = natOfDigits ds := by
  unfold durNum at h
  rcases hdw : l.dropWhile Char.isDigit with _ | ⟨c2, rest2⟩
  · rw [hdw] at h
    simp at h
  · rw [hdw] at h
    by_cases hemp : (l.takeWhile Char.isDigit).isEmpty
    · simp [hemp] at h
    · simp only [hemp, Bool.false_eq_true, if_false, Option.some.injEq, Prod.mk.injEq] at h
      obtain ⟨hn, hc2, hrest2⟩ := h
      refine ⟨l.takeWhile Char.isDigit,
        ⟨?_, fun x hx => mem_takeWhile_sat _ l x hx⟩, ?_, ?_, hn.symm⟩
      · intro hnil
        rw [hnil] at hemp
        exact hemp rfl
      · rw [← hc2, ← hrest2, ← hdw]
        exact (List.takeWhile_append_dropWhile Char.isDigit l).symm
      · rw [← hc2]
        exact dropWhile_head_not Char.isDigit l c2 rest2 hdw

lemma durNum_nil : durNum [] = none := rfl

lemma durNum_T_none (inner : List Char) : durNum ('T' :: inner) = none := rfl

lemma durNum_S_letter (sOpt : Option (List Char)) (hs : optDigits sOpt)
    (n : Nat) (c : Char) (rest : List Char)
    (hdn : durNum (optNum sOpt 'S') = some (n, c, rest)) : c = 'S' := by
  cases sOpt with
  | none => exact absurd hdn (by simp [optNum, durNum_nil])
  | some ds =>
      have hb := durNum_build ds 'S' [] (hs ds rfl) (by decide)
      rw [show optNum (some ds) 'S' = ds ++ 'S' :: [] from rfl, hb] at hdn
      simp only [Option.some.injEq, Prod.mk.injEq] at hdn
      exact hdn.2.1.symm

lemma durNum_MS_letter (mOpt sOpt : Option (List Char)) (hm : optDigits mOpt)
    (hs : optDigits sOpt) (n : Nat) (c : Char) (rest : List Char)
    (hdn : durNum (optNum mOpt 'M' ++ optNum sOpt 'S') = some (n, c, rest)) :
    c = 'M' ∨ c = 'S' := by
  cases mOpt with
  | none =>
      right
      rw [show optNum none 'M' = ([] : List Char) from rfl, List.nil_append] at hdn
      exact durNum_S_letter sOpt hs n c rest hdn
  | some ds =>
      left
      have hb := durNum_build ds 'M' (optNum sOpt 'S') (hm ds rfl) (by decide)
      rw [show optNum (some ds) 'M' ++ optNum sOpt 'S'
          = ds ++ 'M' :: optNum sOpt 'S' by simp [optNum], hb] at hdn
      simp only [Option.some.injEq, Prod.mk.injEq] at hdn
      exact hdn.2.1.symm

lemma durParseM_eq_S (l : List Char) (acc : Nat)
    (h : ∀ n c rest, durNum l = some (n, c, rest) → c ≠ 'M') :
    durParseM l acc = durParseS l acc := by
  cases l with
  | nil => rfl
  | cons x xs =>
      unfold durParseM
      rw [if_neg (by simp)]
      rcases hdn : durNum (x :: xs) with _ | ⟨n, c, rest⟩
      · rfl
      · show (if c = 'M' then durParseS rest (acc + n * 60) else durParseS (x :: xs) acc)
            = _
        rw [if_neg (h n c rest hdn)]

lemma durParseH_eq_M (l : List Char) (acc : Nat)
    (h : ∀ n c rest, durNum l = some (n, c, rest) → c ≠ 'H') :
    durParseH l acc = durParseM l acc := by
  cases l with
  | nil => rfl
  | cons x xs =>
      unfold durParseH
      rw [if_neg (by simp)]
      rcases hdn : durNum (x :: xs) with _ | ⟨n, c, rest⟩
      · rfl
      · show (if c = 'H' then durParseM rest (acc + n * 3600) else durParseM (x :: xs) acc)
            = _
        rw [if_neg (h n c rest hdn)]

lemma durParseS_build (sOpt : Option (List Char)) (acc : Nat) (hs : optDigits sOpt) :
    durParseS (optNum sOpt 'S') acc = some (acc + optVal sOpt) := by
  cases sOpt with
  | none => simp [optNum, optVal, durParseS]
  | some ds =>
      have hds : DigitRun ds := hs ds rfl
      have hdn : durNum (ds ++ 'S' :: ([] : List Char))
          = some (natOfDigits ds, 'S', []) := durNum_build _ _ _ hds (by decide)
      obtain ⟨d0, ds0, rfl⟩ : ∃ d0 ds0, ds = d0 :: ds0 := by
        cases ds with
        | nil => exact absurd rfl hds.1
        | cons a l => exact ⟨a, l, rfl⟩
      show durParseS ((d0 :: ds0) ++ 'S' :: []) acc = some (acc + natOfDigits (d0 :: ds0))
      unfold durParseS
      rw [if_neg (by simp), hdn]
      rfl

lemma durParseM_build (mOpt sOpt : Option (List Char)) (acc : Nat)
    (hm : optDigits mOpt) (hs : optDigits sOpt) :
    durParseM (optNum mOpt 'M' ++ optNum sOpt 'S') acc
      = some (acc + optVal mOpt * 60 + optVal sOpt) := by
  cases mOpt with
  | none =>
      rw [show optNum none 'M' = ([] : List Char) from rfl, List.nil_append,
        durParseM_eq_S _ _ (fun n c rest hdn => by
          rw [durNum_S_letter sOpt hs n c rest hdn]
          decide),
        durParseS_build sOpt acc hs]
      simp [optVal]
  | some ds =>
      have hds : DigitRun ds := hm ds rfl
      have hdn : durNum (ds ++ 'M' :: optNum sOpt 'S')
          = some (natOfDigits ds, 'M', optNum sOpt 'S') :=
        durNum_build _ _ _ hds (by decide)
      obtain ⟨d0, ds0, rfl⟩ : ∃ d0 ds0, ds = d0 :: ds0 := by
        cases ds with
        | nil => exact absurd rfl hds.1
        | cons a l => exact ⟨a, l, rfl⟩
      rw [show optNum (some (d0 :: ds0)) 'M' ++ optNum sOpt 'S'
          = (d0 :: ds0) ++ 'M' :: optNum sOpt 'S' by simp [optNum]]
      unfold durParseM
      rw [if_neg (by simp), hdn]
      show durParseS (optNum sOpt 'S') (acc + natOfDigits (d0 :: ds0) * 60) = _
      rw [durParseS_build sOpt _ hs]
      rfl

lemma durParseH_build (hOpt mOpt sOpt : Option (List Char)) (acc : Nat)
    (hh : optDigits hOpt) (hm : optDigits mOpt) (hs : optDigits sOpt) :
    durParseH (optNum hOpt 'H' ++ optNum mOpt 'M' ++ optNum sOpt 'S') acc
      = some (acc + optVal hOpt * 3600 + optVal mOpt * 60 + optVal sOpt) := by
  cases hOpt with
  | none =>
      rw [show optNum none 'H' ++ optNum mOpt 'M' ++ optNum sOpt 'S'
          = optNum mOpt 'M' ++ optNum sOpt 'S' by simp [optNum],
        durParseH_eq_M _ _ (fun n c rest hdn => by
          rcases durNum_MS_letter mOpt sOpt hm hs n c rest hdn with rfl | rfl
          · decide
          · decide),
        durParseM_build mOpt sOpt acc hm hs]
      simp [optVal]
  | some ds =>
      have hds : DigitRun ds := hh ds rfl
      have hdn : durNum (ds ++ 'H' :: (optNum mOpt 'M' ++ optNum sOpt 'S'))
          = some (natOfDigits ds, 'H', optNum mOpt 'M' ++ optNum sOpt 'S') :=
        durNum_build _ _ _ hds (by decide)
      obtain ⟨d0, ds0, rfl⟩ : ∃ d0 ds0, ds = d0 :: ds0 := by
        cases ds with
        | nil => exact absurd rfl hds.1
        | cons a l => exact ⟨a, l, rfl⟩
      rw [show optNum (some (d0 :: ds0)) 'H' ++ optNum mOpt 'M' ++ optNum sOpt 'S'
          = (d0 :: ds0) ++ 'H' :: (optNum mOpt 'M' ++ optNum sOpt 'S') by
            simp [optNum, List.append_assoc]]
      unfold durParseH
      rw [if_neg (by simp), hdn]
      show durParseM (optNum mOpt 'M' ++ optNum sOpt 'S')
          (acc + natOfDigits (d0 :: ds0) * 3600) = _
      rw [durParseM_build mOpt sOpt _ hm hs]
      rfl

lemma durParseT_build
    (t : Option (Option (List Char) × Option (List Char) × Option (List Char)))
    (acc : Nat) (ht : durTOk t) :
    durParseT (tPart t) acc = some (acc + tSeconds t) := by
  cases t with
  | none => simp [tPart, tSeconds, durParseT]
  | some hms =>
      obtain ⟨h, m, sv⟩ := hms
      obtain ⟨hhd, hmd, hsd⟩ := ht (h, m, sv) rfl
      show durParseH (optNum h 'H' ++ optNum m 'M' ++ optNum sv 'S') acc = _
      rw [durParseH_build h m sv acc hhd hmd hsd]
      show _ = some (acc + (optVal h * 3600 + optVal m * 60 + optVal sv))
      rw [Nat.add_assoc, Nat.add_assoc, Nat.add_assoc]

lemma durAfterP_build (d : Option (List Char))
    (t : Option (Option (List Char) × Option (List Char) × Option (List Char)))
    (hd : optDigits d) (ht : durTOk t) :
    durAfterP (optNum d 'D' ++ tPart t) = some (durSeconds d t) := by
  cases d with
  | none =>
      rw [show optNum none 'D' ++ tPart t = tPart t by simp [optNum]]
      have heq : durAfterP (tPart t) = durParseT (tPart t) 0 := by
        cases t with
        | none => rfl
        | some hms =>
            obtain ⟨h, m, sv⟩ := hms
            show durAfterP ('T' :: _) = _
            unfold durAfterP
            rw [durNum_T_none]
            rfl
      rw [heq, durParseT_build t 0 ht]
      simp [durSeconds, optVal]
  | some ds =>
      have hds : DigitRun ds := hd ds rfl
      have hdn : durNum (ds ++ 'D' :: tPart t)
          = some (natOfDigits ds, 'D', tPart t) :=
        durNum_build _ _ _ hds (by decide)
      rw [show optNum (some ds) 'D' ++ tPart t = ds ++ 'D' :: tPart t by simp [optNum]]
      unfold durAfterP
      rw [hdn]
      show durParseT (tPart t) (natOfDigits ds * 86400) = _
      rw [durParseT_build t _ ht]
      rfl

lemma parseDuration_build (d : Option (List Char))
    (t : Option (Option (List Char) × Option (List Char) × Option (List Char)))
    (hd : optDigits d) (ht : durTOk t) :
    parseDuration (String.mk (durAssemble d t))
      = some (min (durSeconds d t * 1000) MAX_DURATION_MS) := by
  show (durAfterP (optNum d 'D' ++ tPart t)).map
      (fun secs => min (secs * 1000) MAX_DURATION_MS) = _
  rw [durAfterP_build d t hd ht]
  rfl

lemma optVal_none : optVal none = 0 := rfl

lemma optVal_some (ds : List Char) : optVal (some ds) = natOfDigits ds := rfl

lemma tSeconds_none : tSeconds none = 0 := rfl

lemma tSeconds_some (h m sv : Option (List Char)) :
    tSeconds (some (h, m, sv)) = optVal h * 3600 + optVal m * 60 + optVal sv := rfl

lemma durParseS_inv (l : List Char) (acc v : Nat) (h : durParseS l acc = some v) :
    (l = [] ∧ v = acc) ∨
      ∃ ds, DigitRun ds ∧ l = ds ++ ['S'] ∧ v = acc + natOfDigits ds := by
  unfold durParseS at h
  by_cases hemp : l.isEmpty
  · rw [if_pos hemp] at h
    exact Or.inl ⟨List.isEmpty_iff.mp hemp, (Option.some_inj.mp h).symm⟩
  · rw [if_neg hemp] at h
    rcases hdn : durNum l with _ | ⟨n, c, rest⟩ <;> rw [hdn] at h
    · exact absurd h (by simp)
    · have h2 : (if c = 'S' then (if rest.isEmpty then some (acc + n) else none)
          else none) = some v := h
      by_cases hc : c = 'S'
      · rw [if_pos hc] at h2
        by_cases hre : rest.isEmpty
        · rw [if_pos hre] at h2
          obtain ⟨ds, hds, hl, _, hn⟩ := durNum_inv l n c rest hdn
          refine Or.inr ⟨ds, hds, ?_, ?_⟩
          · rw [hl, hc, List.isEmpty_iff.mp hre]
          · rw [← Option.some_inj.mp h2, hn]
        · rw [if_neg hre] at h2
          exact absurd h2 (by simp)
      · rw [if_neg hc] at h2
        exact absurd h2 (by simp)

lemma durParseM_inv (l : List Char) (acc v : Nat) (h : durParseM l acc = some v) :
    ∃ mOpt sOpt, optDigits mOpt ∧ optDigits sOpt ∧
      l = optNum mOpt 'M' ++ optNum sOpt 'S' ∧
      v = acc + optVal mOpt * 60 + optVal sOpt := by
  unfold durParseM at h
  by_cases hemp : l.isEmpty
  · rw [if_pos hemp] at h
    refine ⟨none, none, by simp [optDigits], by simp [optDigits],
      by simp [optNum, List.isEmpty_iff.mp hemp], ?_⟩
    simp only [optVal_none, optVal_some]
    have := (Option.some_inj.mp h).symm
    omega
  · rw [if_neg hemp] at h
    rcases hdn : durNum l with _ | ⟨n, c, rest⟩ <;> rw [hdn] at h
    · have h2 : durParseS l acc = some v := h
      rcases durParseS_inv l acc v h2 with ⟨hl, _⟩ | ⟨sds, hsds, hl, hv⟩
      · exact absurd (List.isEmpty_iff.mpr hl) hemp
      · refine ⟨none, some sds, by simp [optDigits],
          (fun ds2 hh => by rw [← Option.some_inj.mp hh]; exact hsds),
          by simp [optNum, hl], ?_⟩
        simp only [optVal_none, optVal_some]
        omega
    · have h2 : (if c = 'M' then durParseS rest (acc + n * 60) else durParseS l acc)
          = some v := h
      by_cases hc : c = 'M'
      · rw [if_pos hc] at h2
        obtain ⟨ds, hds, hl, _, hn⟩ := durNum_inv l n c rest hdn
        rcases durParseS_inv rest (acc + n * 60) v h2 with ⟨hre, hv⟩ | ⟨sds, hsds, hre, hv⟩
        · refine ⟨some ds, none,
            (fun ds2 hh => by rw [← Option.some_inj.mp hh]; exact hds),
            by simp [optDigits], ?_, ?_⟩
          · rw [hl, hc, hre]
            simp [optNum]
          · simp only [optVal_none, optVal_some]
            omega
        · refine ⟨some ds, some sds,
            (fun ds2 hh => by rw [← Option.some_inj.mp hh]; exact hds),
            (fun ds2 hh => by rw [← Option.some_inj.mp hh]; exact hsds), ?_, ?_⟩
          · rw [hl, hc, hre]
            simp [optNum, List.append_assoc]
          · simp only [optVal_none, optVal_some]
            omega
      · rw [if_neg hc] at h2
        rcases durParseS_inv l acc v h2 with ⟨hl, _⟩ | ⟨sds, hsds, hl, hv⟩
        · exact absurd (List.isEmpty_iff.mpr hl) hemp
        · refine ⟨none, some sds, by simp [optDigits],
            (fun ds2 hh => by rw [← Option.some_inj.mp hh]; exact hsds),
            by simp [optNum, hl], ?_⟩
          simp only [optVal_none, optVal_some]
          omega

lemma durParseH_inv (l : List Char) (acc v : Nat) (h : durParseH l acc = some v) :
    ∃ hOpt mOpt sOpt, optDigits hOpt ∧ optDigits mOpt ∧ optDigits sOpt ∧
      l = optNum hOpt 'H' ++ optNum mOpt 'M' ++ optNum sOpt 'S' ∧
      v = acc + optVal hOpt * 3600 + optVal mOpt * 60 + optVal sOpt := by
  unfold durParseH at h
  by_cases hemp : l.isEmpty
  · rw [if_pos hemp] at h
    refine ⟨none, none, none, by simp [optDigits], by simp [optDigits], by simp [optDigits],
      by simp [optNum, List.isEmpty_iff.mp hemp], ?_⟩
    simp only [optVal_none, optVal_some]
    have := (Option.some_inj.mp h).symm
    omega
  · rw [if_neg hemp] at h
    rcases hdn : durNum l with _ | ⟨n, c, rest⟩ <;> rw [hdn] at h
    · have h2 : durParseM l acc = some v := h
      obtain ⟨mOpt, sOpt, hmd, hsd, hl, hv⟩ := durParseM_inv l acc v h2
      refine ⟨none, mOpt, sOpt, by simp [optDigits], hmd, hsd, by simp [optNum, hl], ?_⟩
      simp only [optVal_none, optVal_some]
      omega
    · have h2 : (if c = 'H' then durParseM rest (acc + n * 3600) else durParseM l acc)
          = some v := h
      by_cases hc : c = 'H'
      · rw [if_pos hc] at h2
        obtain ⟨ds, hds, hl, _, hn⟩ := durNum_inv l n c rest hdn
        obtain ⟨mOpt, sOpt, hmd, hsd, hre, hv⟩ := durParseM_inv rest (acc + n * 3600) v h2
        refine ⟨some ds, mOpt, sOpt,
          (fun ds2 hh => by rw [← Option.some_inj.mp hh]; exact hds), hmd, hsd, ?_, ?_⟩
        · rw [hl, hc, hre]
          simp [optNum, List.append_assoc]
        · simp only [optVal_none, optVal_some]
          omega
      · rw [if_neg hc] at h2
        obtain ⟨mOpt, sOpt, hmd, hsd, hl, hv⟩ := durParseM_inv l acc v h2
        refine ⟨none, mOpt, sOpt, by simp [optDigits], hmd, hsd, by simp [optNum, hl], ?_⟩
        simp only [optVal_none, optVal_some]
        omega

lemma durParseT_inv (l : List Char) (acc v : Nat) (h : durParseT l acc = some v) :
    ∃ t, durTOk t ∧ l = tPart t ∧ v = acc + tSeconds t := by
  cases l with
  | nil =>
      refine ⟨none, by simp [durTOk], rfl, ?_⟩
      have h2 : some acc = some v := h
      have hv := Option.some_inj.mp h2
      simp only [tSeconds_none]
      omega
  | cons c rest =>
      have h2 : (if c = 'T' then durParseH rest acc else none) = some v := h
      by_cases hc : c = 'T'
      · rw [if_pos hc] at h2
        obtain ⟨hOpt, mOpt, sOpt, hhd, hmd, hsd, hre, hv⟩ := durParseH_inv rest acc v h2
        refine ⟨some (hOpt, mOpt, sOpt), ?_, ?_, ?_⟩
        · intro hms hh
          rw [← Option.some_inj.mp hh]
          exact ⟨hhd, hmd, hsd⟩
        · rw [hc, hre]
          rfl
        · simp only [tSeconds_some]
          omega
      · rw [if_neg hc] at h2
        exact absurd h2 (by simp)

lemma durAfterP_inv (l : List Char) (v : Nat) (h : durAfterP l = some v) :
    ∃ d t, optDigits d ∧ durTOk t ∧ l = optNum d 'D' ++ tPart t ∧
      v = durSeconds d t := by
  unfold durAfterP at h
  rcases hdn : durNum l with _ | ⟨n, c, rest⟩ <;> rw [hdn] at h
  · have h2 : durParseT l 0 = some v := h
    obtain ⟨t, ht, hl, hv⟩ := durParseT_inv l 0 v h2
    refine ⟨none, t, by simp [optDigits], ht, by simp [optNum, hl], ?_⟩
    simp only [durSeconds, optVal_none, optVal_some]
    omega
  · have h2 : (if c = 'D' then durParseT rest (n * 86400) else durParseT l 0)
        = some v := h
    by_cases hc : c = 'D'
    · rw [if_pos hc] at h2
      obtain ⟨ds, hds, hl, _, hn⟩ := durNum_inv l n c rest hdn
      obtain ⟨t, ht, hre, hv⟩ := durParseT_inv rest (n * 86400) v h2
      refine ⟨some ds, t,
        (fun ds2 hh => by rw [← Option.some_inj.mp hh]; exact hds), ht, ?_, ?_⟩
      · rw [hl, hc, hre]
        simp [optNum, List.append_assoc]
      · simp only [durSeconds, optVal_none, optVal_some]
        omega
    · rw [if_neg hc] at h2
      obtain ⟨t, ht, hl, hv⟩ := durParseT_inv l 0 v h2
      refine ⟨none, t, by simp [optDigits], ht, by simp [optNum, hl], ?_⟩
      simp only [durSeconds, optVal_none, optVal_some]
      omega

lemma parseDuration_inv (s : String) (v : Nat) (h : parseDuration s = some v) :
    InDurGrammar s ∧ v ≤ MAX_DURATION_MS := by
  unfold parseDuration at h
  rcases hsd : s.data with _ | ⟨c, rest⟩ <;> rw [hsd] at h
  · exact absurd h (by simp)
  · have h2 : (if c = 'P' then
        (durAfterP rest).map (fun secs => min (secs * 1000) MAX_DURATION_MS)
        else none) = some v := h
    by_cases hc : c = 'P'
    · rw [if_pos hc] at h2
      rcases hap : durAfterP rest with _ | secs
      · rw [hap] at h2
        exact absurd h2 (by simp)
      · rw [hap] at h2
        obtain ⟨d, t, hd, ht, hre, hsec⟩ := durAfterP_inv rest secs hap
        constructor
        · exact ⟨d, t, hd, ht, by rw [hsd, hc, hre]; rfl⟩
        · rw [← Option.some_inj.mp h2]
          exact min_le_right _ _
    · rw [if_neg hc] at h2
      exact absurd h2 (by simp)

/-! ## The civil-calendar round trip

`daysFromCivil` is a left inverse of `civilFromDays`; this powers every
statement made about chains of local↔UTC conversions. -/

lemma doeG_mono (a b : Int) (ha : 0 ≤ a) (hab : a ≤ b) :
    a - a / 1460 + a / 36524 - a / 146096 ≤ b - b / 1460 + b / 36524 - b / 146096 := by
  exact @Int.le_induction
    (fun bb => a - a / 1460 + a / 36524 - a / 146096 ≤
      bb - bb / 1460 + bb / 36524 - bb / 146096)
    a (le_refl _)
    (fun n hn ih => by
      have hstep : n - n / 1460 + n / 36524 - n / 146096 ≤
          (n + 1) - (n + 1) / 1460 + (n + 1) / 36524 - (n + 1) / 146096 := by
        omega
      omega)
    b hab

lemma doeToYoe_mono (a b : Int) (ha : 0 ≤ a) (hab : a ≤ b) :
    doeToYoe a ≤ doeToYoe b := by
  unfold doeToYoe
  exact Int.ediv_le_ediv (by decide) (doeG_mono a b ha hab)

set_option maxRecDepth 4000 in
/-- The year-of-era formula is exact at the two boundaries of every year of
the 400-year era (finite check).  The last day of the era (`doe = 146096`,
the leap day of year 399, which the `startOfYoe` formula does not cover) is
treated separately in `doe_yoe_bounds`. -/
lemma yoe_boundary : ∀ k : Nat, k < 400 →
    doeToYoe (startOfYoe (k : Int)) = (k : Int) ∧
      doeToYoe (startOfYoe ((k : Int) + 1) - 1) = (k : Int) := by
  decide

lemma find_yoe : ∀ (n : Nat) (doe : Int), 0 ≤ doe → doe < startOfYoe (n : Int) →
    ∃ k : Nat, k < n ∧ startOfYoe (k : Int) ≤ doe ∧ doe < startOfYoe ((k : Int) + 1) := by
  intro n
  induction n with
  | zero =>
      intro doe h0 hlt
      exfalso
      have hz : startOfYoe ((0 : Nat) : Int) = 0 := by norm_num [startOfYoe]
      omega
  | succ n ih =>
      intro doe h0 hlt
      by_cases hge : startOfYoe (n : Int) ≤ doe
      · refine ⟨n, Nat.lt_succ_self n, hge, ?_⟩
        have hcast : ((n + 1 : Nat) : Int) = (n : Int) + 1 := by push_cast; ring
        rw [hcast] at hlt
        exact hlt
      · obtain ⟨k, hk, h1, h2⟩ := ih doe h0 (lt_of_not_le hge)
        exact ⟨k, Nat.lt_succ_of_lt hk, h1, h2⟩

lemma doe_yoe_bounds (doe : Int) (h0 : 0 ≤ doe) (h1 : doe < 146097) :
    0 ≤ doeToYoe doe ∧ doeToYoe doe < 400 ∧
      startOfYoe (doeToYoe doe) ≤ doe ∧ doe ≤ startOfYoe (doeToYoe doe) + 365 := by
  by_cases htop : doe = 146096
  · subst htop
    have hv : doeToYoe 146096 = 399 := by decide
    have hs : startOfYoe 399 = 145731 := by decide
    rw [hv, hs]
    norm_num
  · obtain ⟨k, hk, hks, hke⟩ := find_yoe 400 doe h0
      (by
        have hc : ((400 : Nat) : Int) = 400 := by norm_num
        have h400 : startOfYoe 400 = 146096 := by decide
        rw [hc, h400]
        omega)
    obtain ⟨hb1, hb2⟩ := yoe_boundary k hk
    have hk0 : (0 : Int) ≤ (k : Int) := Int.natCast_nonneg k
    have hstart0 : 0 ≤ startOfYoe (k : Int) := by
      simp only [startOfYoe]
      omega
    have hlow : (k : Int) ≤ doeToYoe doe := by
      rw [← hb1]
      exact doeToYoe_mono _ _ hstart0 hks
    have hhigh : doeToYoe doe ≤ (k : Int) := by
      rw [← hb2]
      exact doeToYoe_mono doe (startOfYoe ((k : Int) + 1) - 1) h0 (by omega)
    have heq : doeToYoe doe = (k : Int) := le_antisymm hhigh hlow
    have hsub : startOfYoe ((k : Int) + 1) - startOfYoe (k : Int) ≤ 366 := by
      simp only [startOfYoe]
      omega
    rw [heq]
    exact ⟨hk0, by exact_mod_cast hk, hks, by omega⟩

theorem daysFromCivil_civilFromDays (z : Int) : daysFromCivil (civilFromDays z) = z := by
  simp only [civilFromDays, daysFromCivil]
  set era := (z + 719468) / 146097 with hera
  set doe := z + 719468 - era * 146097 with hdoe
  set yoe := (doe - doe / 1460 + doe / 36524 - doe / 146096) / 365 with hyoe
  set doy := doe - (365 * yoe + yoe / 4 - yoe / 100) with hdoy
  set mp := (5 * doy + 2) / 153 with hmp
  clear_value era doe yoe doy mp
  have hbounds := doe_yoe_bounds doe (by omega) (by omega)
  simp only [doeToYoe, startOfYoe] at hbounds
  rw [← hyoe] at hbounds
  obtain ⟨hy0, hy400, hys, hyee⟩ := hbounds
  have hdoy0 : 0 ≤ doy := by omega
  have hdoy365 : doy ≤ 365 := by omega
  have hmp0 : 0 ≤ mp := by omega
  have hmp11 : mp ≤ 11 := by omega
  have hdiveq : (yoe + era * 400) / 400 = era := by omega
  have hsimp : yoe + era * 400 - era * 400 = yoe := by ring
  by_cases hcase : mp < 10
  · rw [if_pos hcase, if_neg (by omega : ¬ (mp + 3 ≤ 2)), if_neg (by omega : ¬ (mp + 3 ≤ 2)),
      if_pos (by omega : (2:Int) < mp + 3), hdiveq, hsimp,
      (by ring : mp + 3 - 3 = mp)]
    omega
  · rw [if_neg hcase, if_pos (by omega : mp - 9 ≤ 2), if_pos (by omega : mp - 9 ≤ 2),
      if_neg (by omega : ¬ ((2:Int) < mp - 9)),
      (by ring : yoe + era * 400 + 1 - 1 = yoe + era * 400), hdiveq, hsimp,
      (by ring : mp - 9 + 9 = mp)]
    omega

/-! ## Fixed-offset zones and `buildWindowV2` -/

lemma civilFromDays_month_bounds (zd : Int) :
    1 ≤ (civilFromDays zd).2.1 ∧ (civilFromDays zd).2.1 ≤ 12 := by
  simp only [civilFromDays]
  set era := (zd + 719468) / 146097 with hera
  set doe := zd + 719468 - era * 146097 with hdoe
  set yoe := (doe - doe / 1460 + doe / 36524 - doe / 146096) / 365 with hyoe
  set doy := doe - (365 * yoe + yoe / 4 - yoe / 100) with hdoy
  set mp := (5 * doy + 2) / 153 with hmp
  clear_value era doe yoe doy mp
  have hbounds := doe_yoe_bounds doe (by omega) (by omega)
  simp only [doeToYoe, startOfYoe] at hbounds
  rw [← hyoe] at hbounds
  obtain ⟨hy0, hy400, hys, hyee⟩ := hbounds
  have hmp0 : 0 ≤ mp := by omega
  have hmp11 : mp ≤ 11 := by omega
  show 1 ≤ (if mp < 10 then mp + 3 else mp - 9) ∧ (if mp < 10 then mp + 3 else mp - 9) ≤ 12
  by_cases hcase : mp < 10
  · rw [if_pos hcase]
    omega
  · rw [if_neg hcase]
    omega

lemma daysFromCivil_day_linear (y m d : Int) :
    daysFromCivil (y, m, d) = daysFromCivil (y, m, 1) + (d - 1) := by
  simp only [daysFromCivil]
  omega

lemma daysFromCivil_base (zd : Int) :
    daysFromCivil ((civilFromDays zd).1, (civilFromDays zd).2.1, 1)
      + ((civilFromDays zd).2.2 - 1) = zd := by
  rw [← daysFromCivil_day_linear]
  rw [show ((civilFromDays zd).1, (civilFromDays zd).2.1, (civilFromDays zd).2.2)
      = civilFromDays zd from rfl]
  exact daysFromCivil_civilFromDays zd

lemma dateUTCms_civil_addDays (zd days : Int) :
    dateUTCms (civilFromDays zd).1 ((civilFromDays zd).2.1 - 1)
        ((civilFromDays zd).2.2 + days) 0 0 0 0
      = (zd + days) * 86400000 := by
  obtain ⟨hm1, hm12⟩ := civilFromDays_month_bounds zd
  have hA := daysFromCivil_base zd
  simp only [dateUTCms]
  rw [(by omega : ((civilFromDays zd).2.1 - 1) / 12 = 0),
    (by omega : ((civilFromDays zd).2.1 - 1) % 12 = (civilFromDays zd).2.1 - 1),
    (by ring : (civilFromDays zd).1 + 0 = (civilFromDays zd).1),
    (by ring : (civilFromDays zd).2.1 - 1 + 1 = (civilFromDays zd).2.1)]
  omega

lemma dateUTCms_civil (zd : Int) :
    dateUTCms (civilFromDays zd).1 ((civilFromDays zd).2.1 - 1) (civilFromDays zd).2.2
        0 0 0 0
      = zd * 86400000 := by
  have h := dateUTCms_civil_addDays zd 0
  rw [(by ring : (civilFromDays zd).2.2 + 0 = (civilFromDays zd).2.2)] at h
  rw [h]
  ring

lemma fieldsToMs_msToFields (t : Int) :
    dateUTCms (msToFields t).year ((msToFields t).month - 1) (msToFields t).day
      (msToFields t).hour (msToFields t).minute (msToFields t).second 0
      = t - t % 1000 := by
  obtain ⟨hm1, hm12⟩ := civilFromDays_month_bounds (t / 86400000)
  have hA := daysFromCivil_base (t / 86400000)
  simp only [msToFields, dateUTCms]
  rw [(by omega : ((civilFromDays (t / 86400000)).2.1 - 1) / 12 = 0),
    (by omega : ((civilFromDays (t / 86400000)).2.1 - 1) % 12
      = (civilFromDays (t / 86400000)).2.1 - 1),
    (by ring : (civilFromDays (t / 86400000)).1 + 0 = (civilFromDays (t / 86400000)).1),
    (by ring : (civilFromDays (t / 86400000)).2.1 - 1 + 1
      = (civilFromDays (t / 86400000)).2.1)]
  omega

lemma getOffsetMinutesT_fixed (o t : Int) : getOffsetMinutesT (fixedZone o) t = o := by
  simp only [getOffsetMinutesT, getZonedParts, fixedZone]
  rw [fieldsToMs_msToFields (t + o * 60000)]
  omega

lemma localDateTimeToUtcMillis_fixed (f : DTFields) (ms o : Int) :
    localDateTimeToUtcMillis f ms (fixedZone o)
      = dateUTCms f.year (f.month - 1) f.day f.hour f.minute f.second ms - o * 60000 := by
  simp only [localDateTimeToUtcMillis]
  rw [getOffsetMinutesT_fixed, getOffsetMinutesT_fixed]
  simp

lemma getZonedYmd_fixed (t o : Int) :
    getZonedYmd t (fixedZone o) = civilFromDays ((t + o * 60000) / 86400000) := rfl

lemma msToFields_day (zd : Int) :
    msToFields (zd * 86400000)
      = ⟨(civilFromDays zd).1, (civilFromDays zd).2.1, (civilFromDays zd).2.2, 0, 0, 0⟩ := by
  simp only [msToFields]
  rw [(by omega : zd * 86400000 / 86400000 = zd)]
  rw [DTFields.mk.injEq]
  refine ⟨rfl, rfl, rfl, by omega, by omega, by omega⟩

lemma utcMidnight_civil_fixed (zd o : Int) :
    utcMillisFromZonedLocal (civilFromDays zd).1 (civilFromDays zd).2.1
        (civilFromDays zd).2.2 0 0 (fixedZone o)
      = zd * 86400000 - o * 60000 := by
  unfold utcMillisFromZonedLocal
  rw [localDateTimeToUtcMillis_fixed]
  dsimp only
  rw [dateUTCms_civil]

lemma addDaysToZonedYmd_civil (zd days : Int) :
    addDaysToZonedYmd (civilFromDays zd) days = civilFromDays (zd + days) := by
  simp only [addDaysToZonedYmd]
  rw [dateUTCms_civil, msToFields_day]
  dsimp only
  rw [dateUTCms_civil_addDays, msToFields_day]

/-! ## Lemmas about the modelled resolver and its line scan -/

lemma takeDigits_append (n : Nat) (l rest : List Char) (h : DigitList n l) :
    takeDigits n (l ++ rest) = some (natOfDigits l, rest) := by
  obtain ⟨hlen, hdig⟩ := h
  subst hlen
  simp only [takeDigits]
  rw [List.take_left, List.drop_left]
  rw [if_pos ⟨rfl, hdig⟩]

lemma takeDigits_exact (n : Nat) (l : List Char) (h : DigitList n l) :
    takeDigits n l = some (natOfDigits l, []) := by
  have h2 := takeDigits_append n l [] h
  rwa [List.append_nil] at h2

lemma icalValueSpec_floating (dy dmo dd dh dmi ds : List Char)
    (h4 : DigitList 4 dy) (h2a : DigitList 2 dmo) (h2b : DigitList 2 dd)
    (h2c : DigitList 2 dh) (h2d : DigitList 2 dmi) (h2e : DigitList 2 ds) :
    icalValueSpec (dy ++ (dmo ++ (dd ++ 'T' :: (dh ++ (dmi ++ ds)))))
      = some ((natOfDigits dy : Int), (natOfDigits dmo : Int), (natOfDigits dd : Int),
          some ((natOfDigits dh : Int), (natOfDigits dmi : Int), (natOfDigits ds : Int),
            TzSuffix.floating)) := by
  simp only [icalValueSpec]
  rw [takeDigits_append 4 dy _ h4]
  dsimp only
  rw [takeDigits_append 2 dmo _ h2a]
  dsimp only
  rw [takeDigits_append 2 dd _ h2b]
  dsimp only
  rw [if_pos rfl]
  rw [takeDigits_append 2 dh _ h2c]
  dsimp only
  rw [takeDigits_append 2 dmi _ h2d]
  dsimp only
  rw [takeDigits_exact 2 ds h2e]

lemma icalValueSpec_offset (dy dmo dd dh dmi ds oh om : List Char) (sgn : Char)
    (h4 : DigitList 4 dy) (h2a : DigitList 2 dmo) (h2b : DigitList 2 dd)
    (h2c : DigitList 2 dh) (h2d : DigitList 2 dmi) (h2e : DigitList 2 ds)
    (hoh : DigitList 2 oh) (hom : DigitList 2 om)
    (hs : sgn = '+' ∨ sgn = '-') :
    icalValueSpec (dy ++ (dmo ++ (dd ++ 'T' :: (dh ++ (dmi ++ (ds ++ sgn :: (oh ++ om)))))))
      = some ((natOfDigits dy : Int), (natOfDigits dmo : Int), (natOfDigits dd : Int),
          some ((natOfDigits dh : Int), (natOfDigits dmi : Int), (natOfDigits ds : Int),
            TzSuffix.offset (if sgn = '+' then 1 else -1) (natOfDigits oh)
              (natOfDigits om))) := by
  simp only [icalValueSpec]
  rw [takeDigits_append 4 dy _ h4]
  dsimp only
  rw [takeDigits_append 2 dmo _ h2a]
  dsimp only
  rw [takeDigits_append 2 dd _ h2b]
  dsimp only
  rw [if_pos rfl]
  rw [takeDigits_append 2 dh _ h2c]
  dsimp only
  rw [takeDigits_append 2 dmi _ h2d]
  dsimp only
  rw [takeDigits_append 2 ds _ h2e]
  dsimp only
  rw [if_neg (by rcases hs with h | h <;> subst h <;> simp)]
  rw [if_pos hs]
  rw [takeDigits_append 2 oh _ hoh]
  dsimp only
  rw [takeDigits_exact 2 om hom]
  dsimp only
  rw [if_pos rfl]

lemma upperChars_append (a b : List Char) :
    upperChars (a ++ b) = upperChars a ++ upperChars b := by
  simp [upperChars]

lemma findTzidParam_skip (c : Char) (rest : List Char)
    (h : ("TZID=".data).isPrefixOf (c :: rest) = false) :
    findTzidParam (c :: rest) = findTzidParam rest := by
  rw [findTzidParam, h]
  simp

lemma findTzidParam_hit (tz rest : List Char) (htzne : tz ≠ [])
    (htzok : ∀ c ∈ tz, ¬(c = ';' ∨ c = ':')) :
    findTzidParam ('T' :: 'Z' :: 'I' :: 'D' :: '=' :: (tz ++ ':' :: rest)) = some tz := by
  rw [findTzidParam]
  rw [if_pos (show ("TZID=".data.isPrefixOf
    ('T' :: 'Z' :: 'I' :: 'D' :: '=' :: (tz ++ ':' :: rest))) = true from by simp [List.isPrefixOf])]
  have hcap : (('Z' :: 'I' :: 'D' :: '=' :: (tz ++ ':' :: rest)).drop 4).takeWhile
      (fun ch => !(ch = ';' || ch = ':')) = tz := by
    show (tz ++ ':' :: rest).takeWhile (fun ch => !(ch = ';' || ch = ':')) = tz
    refine takeWhile_append_not _ ':' rest tz ?_ (by decide)
    intro x hx
    have h2 := htzok x hx
    have hx1 : x ≠ ';' := fun he => h2 (Or.inl he)
    have hx2 : x ≠ ':' := fun he => h2 (Or.inr he)
    simp [hx1, hx2]
  rw [hcap]
  rw [if_neg (by cases tz with | nil => exact absurd rfl htzne | cons a l => simp)]

lemma grabDate8_nondigit (c : Char) (l : List Char) (h : c.isDigit = false) :
    grabDate8 (c :: l) = none := by
  simp only [grabDate8]
  rw [if_neg ?hne]
  case hne =>
    intro hcl
    obtain ⟨_, hall⟩ := hcl
    rw [List.take_succ_cons, List.all_cons, h] at hall
    simp at hall

lemma findDateMatch_skip (c : Char) (rest : List Char) (h : ¬(c = ':' ∨ c = ';')) :
    findDateMatch (c :: rest) = findDateMatch rest := by
  rw [findDateMatch, if_neg h]

lemma findDateMatch_sep_none (c : Char) (rest : List Char) (hc : c = ':' ∨ c = ';')
    (h : grabDate8 rest = none) :
    findDateMatch (c :: rest) = findDateMatch rest := by
  rw [findDateMatch, if_pos hc, h]

lemma findDateMatch_sep_some (c : Char) (rest v : List Char) (hc : c = ':' ∨ c = ';')
    (h : grabDate8 rest = some v) :
    findDateMatch (c :: rest) = some v := by
  rw [findDateMatch, if_pos hc, h]

lemma findDateMatch_through (rest : List Char) : ∀ l : List Char,
    (∀ c ∈ l, ¬(c = ':' ∨ c = ';')) → findDateMatch (l ++ rest) = findDateMatch rest := by
  intro l
  induction l with
  | nil => intro _; rfl
  | cons a l ih =>
      intro hl
      rw [List.cons_append, findDateMatch_skip a _ (hl a (List.mem_cons_self a l))]
      exact ih (fun c hc => hl c (List.mem_cons_of_mem a hc))

lemma grabDate8_value (dy dmo dd dh dmi ds : List Char)
    (h4 : DigitList 4 dy) (h2a : DigitList 2 dmo) (h2b : DigitList 2 dd)
    (h2c : DigitList 2 dh) (h2d : DigitList 2 dmi) (h2e : DigitList 2 ds) :
    grabDate8 (dy ++ (dmo ++ (dd ++ 'T' :: (dh ++ (dmi ++ ds)))))
      = some (dy ++ (dmo ++ (dd ++ 'T' :: (dh ++ (dmi ++ ds))))) := by
  have hre : dy ++ (dmo ++ (dd ++ 'T' :: (dh ++ (dmi ++ ds))))
      = (dy ++ dmo ++ dd) ++ 'T' :: (dh ++ (dmi ++ ds)) := by
    simp [List.append_assoc]
  have hlen8 : (dy ++ dmo ++ dd).length = 8 := by
    simp [List.length_append, h4.1, h2a.1, h2b.1]
  have hdig8 : (dy ++ dmo ++ dd).all Char.isDigit = true := by
    simp [List.all_append, h4.2, h2a.2, h2b.2]
  have hlen6 : (dh ++ (dmi ++ ds)).length = 6 := by
    simp [List.length_append, h2c.1, h2d.1, h2e.1]
  have hdig6 : (dh ++ (dmi ++ ds)).all Char.isDigit = true := by
    simp [List.all_append, h2c.2, h2d.2, h2e.2]
  rw [hre]
  simp only [grabDate8]
  rw [show ((dy ++ dmo ++ dd) ++ 'T' :: (dh ++ (dmi ++ ds))).take 8
      = ((dy ++ dmo ++ dd) ++ 'T' :: (dh ++ (dmi ++ ds))).take (dy ++ dmo ++ dd).length
    from by rw [hlen8]]
  rw [List.take_left]
  rw [show ((dy ++ dmo ++ dd) ++ 'T' :: (dh ++ (dmi ++ ds))).drop 8
      = ((dy ++ dmo ++ dd) ++ 'T' :: (dh ++ (dmi ++ ds))).drop (dy ++ dmo ++ dd).length
    from by rw [hlen8]]
  rw [List.drop_left]
  rw [if_pos ⟨hlen8, hdig8⟩]
  dsimp only
  rw [if_pos rfl]
  rw [List.take_of_length_le (le_of_eq hlen6)]
  rw [if_pos ⟨hlen6, hdig6⟩]
  rw [List.drop_eq_nil_of_le (le_of_eq hlen6)]

lemma parseICalDateSpec_bad_tzid (db : TzDb) (tz : String) (b : Bool)
    (dtz : Option String) (dy dmo dd dh dmi ds : List Char)
    (h4 : DigitList 4 dy) (h2a : DigitList 2 dmo) (h2b : DigitList 2 dd)
    (h2c : DigitList 2 dh) (h2d : DigitList 2 dmi) (h2e : DigitList 2 ds)
    (hdb : db tz = none) :
    parseICalDateSpec db
        (String.mk (dy ++ (dmo ++ (dd ++ 'T' :: (dh ++ (dmi ++ ds)))))) (some tz) b dtz
      = Except.error ("unsupported_tzid: " ++ tz) := by
  simp only [parseICalDateSpec]
  rw [icalValueSpec_floating dy dmo dd dh dmi ds h4 h2a h2b h2c h2d h2e]
  dsimp only
  cases b with
  | true =>
      rw [if_pos rfl]
      simp only [allDayResolveSpec]
      rw [hdb]
  | false =>
      rw [if_neg (by simp)]
      rw [hdb]

lemma evStepSpec_err (db : TzDb) (dtz : Option String) (e : String) (line : String) :
    evStepSpec db dtz (Except.error e) line = Except.error e := rfl

lemma foldl_evStepSpec_error (db : TzDb) (dtz : Option String) :
    ∀ (lines : List String) (e : String),
      lines.foldl (evStepSpec db dtz) (Except.error e) = Except.error e := by
  intro lines
  induction lines with
  | nil => intro e; rfl
  | cons a l ih =>
      intro e
      rw [List.foldl_cons, evStepSpec_err, ih]

lemma evStepSpec_begin (db : TzDb) (dtz : Option String) (inEvent : Bool)
    (cur : EvCurrentSpec) (duration : Option Nat) (events : List BusyInterval) :
    evStepSpec db dtz (Except.ok (inEvent, cur, duration, events)) "BEGIN:VEVENT"
      = Except.ok (true, evInitSpec, none, events) := by
  simp only [evStepSpec]
  rw [if_pos (show upperChars "BEGIN:VEVENT".data = "BEGIN:VEVENT".data from by decide)]

lemma evStepSpec_poison_dtstart (db : TzDb) (dtz : Option String)
    (cur : EvCurrentSpec) (duration : Option Nat) (events : List BusyInterval)
    (tz : String) (dy dmo dd dh dmi ds : List Char)
    (htzne : tz.data ≠ []) (htzok : ∀ c ∈ tz.data, ¬(c = ';' ∨ c = ':'))
    (hdb : db tz = none)
    (h4 : DigitList 4 dy) (h2a : DigitList 2 dmo) (h2b : DigitList 2 dd)
    (h2c : DigitList 2 dh) (h2d : DigitList 2 dmi) (h2e : DigitList 2 ds) :
    evStepSpec db dtz (Except.ok (true, cur, duration, events))
        (String.mk ("DTSTART;TZID=".data ++ (tz.data ++ ':' ::
          (dy ++ (dmo ++ (dd ++ 'T' :: (dh ++ (dmi ++ ds))))))))
      = Except.error ("unsupported_tzid: " ++ tz) := by
  have hupper : upperChars ("DTSTART;TZID=".data ++ (tz.data ++ ':' ::
        (dy ++ (dmo ++ (dd ++ 'T' :: (dh ++ (dmi ++ ds)))))))
      = "DTSTART;TZID=".data ++ upperChars (tz.data ++ ':' ::
        (dy ++ (dmo ++ (dd ++ 'T' :: (dh ++ (dmi ++ ds)))))) := by
    rw [upperChars_append,
      show upperChars "DTSTART;TZID=".data = "DTSTART;TZID=".data from by decide]
  have hne_begin : ¬("DTSTART;TZID=".data ++ upperChars (tz.data ++ ':' ::
        (dy ++ (dmo ++ (dd ++ 'T' :: (dh ++ (dmi ++ ds))))))
      = "BEGIN:VEVENT".data) := by
    intro h
    rw [show "DTSTART;TZID=".data = 'D' :: "TSTART;TZID=".data from rfl,
      List.cons_append,
      show "BEGIN:VEVENT".data = 'B' :: "EGIN:VEVENT".data from rfl] at h
    injection h with h1 _
    exact absurd h1 (by decide)
  have hne_end : ¬("DTSTART;TZID=".data ++ upperChars (tz.data ++ ':' ::
        (dy ++ (dmo ++ (dd ++ 'T' :: (dh ++ (dmi ++ ds))))))
      = "END:VEVENT".data) := by
    intro h
    rw [show "DTSTART;TZID=".data = 'D' :: "TSTART;TZID=".data from rfl,
      List.cons_append,
      show "END:VEVENT".data = 'E' :: "ND:VEVENT".data from rfl] at h
    injection h with h1 _
    exact absurd h1 (by decide)
  have hpref : ("DTSTART".data).isPrefixOf ("DTSTART;TZID=".data ++
      upperChars (tz.data ++ ':' :: (dy ++ (dmo ++ (dd ++ 'T' ::
        (dh ++ (dmi ++ ds))))))) = true := by
    simp [List.isPrefixOf]
  have htzm : findTzidParam ("DTSTART;TZID=".data ++ (tz.data ++ ':' ::
        (dy ++ (dmo ++ (dd ++ 'T' :: (dh ++ (dmi ++ ds)))))))
      = some tz.data := by
    rw [show "DTSTART;TZID=".data ++ (tz.data ++ ':' ::
        (dy ++ (dmo ++ (dd ++ 'T' :: (dh ++ (dmi ++ ds))))))
      = 'D' :: 'T' :: 'S' :: 'T' :: 'A' :: 'R' :: 'T' :: ';' ::
        ('T' :: 'Z' :: 'I' :: 'D' :: '=' :: (tz.data ++ ':' ::
          (dy ++ (dmo ++ (dd ++ 'T' :: (dh ++ (dmi ++ ds))))))) from rfl]
    rw [findTzidParam_skip _ _ (by simp [List.isPrefixOf])]
    rw [findTzidParam_skip _ _ (by simp [List.isPrefixOf])]
    rw [findTzidParam_skip _ _ (by simp [List.isPrefixOf])]
    rw [findTzidParam_skip _ _ (by simp [List.isPrefixOf])]
    rw [findTzidParam_skip _ _ (by simp [List.isPrefixOf])]
    rw [findTzidParam_skip _ _ (by simp [List.isPrefixOf])]
    rw [findTzidParam_skip _ _ (by simp [List.isPrefixOf])]
    rw [findTzidParam_skip _ _ (by simp [List.isPrefixOf])]
    exact findTzidParam_hit tz.data _ htzne htzok
  have hfdm : findDateMatch ("DTSTART;TZID=".data ++ (tz.data ++ ':' ::
        (dy ++ (dmo ++ (dd ++ 'T' :: (dh ++ (dmi ++ ds)))))))
      = some (dy ++ (dmo ++ (dd ++ 'T' :: (dh ++ (dmi ++ ds))))) := by
    rw [show "DTSTART;TZID=".data ++ (tz.data ++ ':' ::
        (dy ++ (dmo ++ (dd ++ 'T' :: (dh ++ (dmi ++ ds))))))
      = 'D' :: 'T' :: 'S' :: 'T' :: 'A' :: 'R' :: 'T' :: ';' ::
        ('T' :: 'Z' :: 'I' :: 'D' :: '=' :: (tz.data ++ ':' ::
          (dy ++ (dmo ++ (dd ++ 'T' :: (dh ++ (dmi ++ ds))))))) from rfl]
    rw [findDateMatch_skip _ _ (by decide)]
    rw [findDateMatch_skip _ _ (by decide)]
    rw [findDateMatch_skip _ _ (by decide)]
    rw [findDateMatch_skip _ _ (by decide)]
    rw [findDateMatch_skip _ _ (by decide)]
    rw [findDateMatch_skip _ _ (by decide)]
    rw [findDateMatch_skip _ _ (by decide)]
    rw [findDateMatch_sep_none ';' _ (Or.inr rfl)
      (grabDate8_nondigit 'T' _ (by decide))]
    rw [show ('T' :: 'Z' :: 'I' :: 'D' :: '=' :: (tz.data ++ ':' ::
        (dy ++ (dmo ++ (dd ++ 'T' :: (dh ++ (dmi ++ ds)))))))
      = ('T' :: 'Z' :: 'I' :: 'D' :: '=' :: tz.data) ++ ':' ::
        (dy ++ (dmo ++ (dd ++ 'T' :: (dh ++ (dmi ++ ds))))) from rfl]
    rw [findDateMatch_through _ _ ?hthrough]
    case hthrough =>
      intro c hc
      simp only [List.mem_cons] at hc
      rcases hc with h | h | h | h | h | h
      · subst h; decide
      · subst h; decide
      · subst h; decide
      · subst h; decide
      · subst h; decide
      · exact fun hor => htzok c h (hor.elim Or.inr Or.inl)
    exact findDateMatch_sep_some ':' _ _ (Or.inl rfl)
      (grabDate8_value dy dmo dd dh dmi ds h4 h2a h2b h2c h2d h2e)
  simp only [evStepSpec]
  rw [hupper]
  rw [if_neg hne_begin, if_neg hne_end]
  rw [if_neg (by decide : ¬((!true) = true))]
  rw [if_pos hpref]
  rw [htzm, hfdm]
  simp only [Option.map_some']
  rw [show String.mk tz.data = tz from rfl]
  rw [parseICalDateSpec_bad_tzid db tz _ dtz dy dmo dd dh dmi ds
    h4 h2a h2b h2c h2d h2e hdb]

lemma evStepSpec_poison_dtend (db : TzDb) (dtz : Option String)
    (cur : EvCurrentSpec) (duration : Option Nat) (events : List BusyInterval)
    (tz : String) (dy dmo dd dh dmi ds : List Char)
    (htzne : tz.data ≠ []) (htzok : ∀ c ∈ tz.data, ¬(c = ';' ∨ c = ':'))
    (hdb : db tz = none)
    (h4 : DigitList 4 dy) (h2a : DigitList 2 dmo) (h2b : DigitList 2 dd)
    (h2c : DigitList 2 dh) (h2d : DigitList 2 dmi) (h2e : DigitList 2 ds) :
    evStepSpec db dtz (Except.ok (true, cur, duration, events))
        (String.mk ("DTEND;TZID=".data ++ (tz.data ++ ':' ::
          (dy ++ (dmo ++ (dd ++ 'T' :: (dh ++ (dmi ++ ds))))))))
      = Except.error ("unsupported_tzid: " ++ tz) := by
  have hupper : upperChars ("DTEND;TZID=".data ++ (tz.data ++ ':' ::
        (dy ++ (dmo ++ (dd ++ 'T' :: (dh ++ (dmi ++ ds)))))))
      = "DTEND;TZID=".data ++ upperChars (tz.data ++ ':' ::
        (dy ++ (dmo ++ (dd ++ 'T' :: (dh ++ (dmi ++ ds)))))) := by
    rw [upperChars_append,
      show upperChars "DTEND;TZID=".data = "DTEND;TZID=".data from by decide]
  have hne_begin : ¬("DTEND;TZID=".data ++ upperChars (tz.data ++ ':' ::
        (dy ++ (dmo ++ (dd ++ 'T' :: (dh ++ (dmi ++ ds))))))
      = "BEGIN:VEVENT".data) := by
    intro h
    rw [show "DTEND;TZID=".data = 'D' :: "TEND;TZID=".data from rfl,
      List.cons_append,
      show "BEGIN:VEVENT".data = 'B' :: "EGIN:VEVENT".data from rfl] at h
    injection h with h1 _
    exact absurd h1 (by decide)
  have hne_end : ¬("DTEND;TZID=".data ++ upperChars (tz.data ++ ':' ::
        (dy ++ (dmo ++ (dd ++ 'T' :: (dh ++ (dmi ++ ds))))))
      = "END:VEVENT".data) := by
    intro h
    rw [show "DTEND;TZID=".data = 'D' :: "TEND;TZID=".data from rfl,
      List.cons_append,
      show "END:VEVENT".data = 'E' :: "ND:VEVENT".data from rfl] at h
    injection h with h1 _
    exact absurd h1 (by decide)
  have hnpS : ¬(("DTSTART".data).isPrefixOf ("DTEND;TZID=".data ++
      upperChars (tz.data ++ ':' :: (dy ++ (dmo ++ (dd ++ 'T' ::
        (dh ++ (dmi ++ ds))))))) = true) := by
    simp [List.isPrefixOf]
  have hprefE : ("DTEND".data).isPrefixOf ("DTEND;TZID=".data ++
      upperChars (tz.data ++ ':' :: (dy ++ (dmo ++ (dd ++ 'T' ::
        (dh ++ (dmi ++ ds))))))) = true := by
    simp [List.isPrefixOf]
  have htzm : findTzidParam ("DTEND;TZID=".data ++ (tz.data ++ ':' ::
        (dy ++ (dmo ++ (dd ++ 'T' :: (dh ++ (dmi ++ ds)))))))
      = some tz.data := by
    rw [show "DTEND;TZID=".data ++ (tz.data ++ ':' ::
        (dy ++ (dmo ++ (dd ++ 'T' :: (dh ++ (dmi ++ ds))))))
      = 'D' :: 'T' :: 'E' :: 'N' :: 'D' :: ';' ::
        ('T' :: 'Z' :: 'I' :: 'D' :: '=' :: (tz.data ++ ':' ::
          (dy ++ (dmo ++ (dd ++ 'T' :: (dh ++ (dmi ++ ds))))))) from rfl]
    rw [findTzidParam_skip _ _ (by simp [List.isPrefixOf])]
    rw [findTzidParam_skip _ _ (by simp [List.isPrefixOf])]
    rw [findTzidParam_skip _ _ (by simp [List.isPrefixOf])]
    rw [findTzidParam_skip _ _ (by simp [List.isPrefixOf])]
    rw [findTzidParam_skip _ _ (by simp [List.isPrefixOf])]
    rw [findTzidParam_skip _ _ (by simp [List.isPrefixOf])]
    exact findTzidParam_hit tz.data _ htzne htzok
  have hfdm : findDateMatch ("DTEND;TZID=".data ++ (tz.data ++ ':' ::
        (dy ++ (dmo ++ (dd ++ 'T' :: (dh ++ (dmi ++ ds)))))))
      = some (dy ++ (dmo ++ (dd ++ 'T' :: (dh ++ (dmi ++ ds))))) := by
    rw [show "DTEND;TZID=".data ++ (tz.data ++ ':' ::
        (dy ++ (dmo ++ (dd ++ 'T' :: (dh ++ (dmi ++ ds))))))
      = 'D' :: 'T' :: 'E' :: 'N' :: 'D' :: ';' ::
        ('T' :: 'Z' :: 'I' :: 'D' :: '=' :: (tz.data ++ ':' ::
          (dy ++ (dmo ++ (dd ++ 'T' :: (dh ++ (dmi ++ ds))))))) from rfl]
    rw [findDateMatch_skip _ _ (by decide)]
    rw [findDateMatch_skip _ _ (by decide)]
    rw [findDateMatch_skip _ _ (by decide)]
    rw [findDateMatch_skip _ _ (by decide)]
    rw [findDateMatch_skip _ _ (by decide)]
    rw [findDateMatch_sep_none ';' _ (Or.inr rfl)
      (grabDate8_nondigit 'T' _ (by decide))]
    rw [show ('T' :: 'Z' :: 'I' :: 'D' :: '=' :: (tz.data ++ ':' ::
        (dy ++ (dmo ++ (dd ++ 'T' :: (dh ++ (dmi ++ ds)))))))
      = ('T' :: 'Z' :: 'I' :: 'D' :: '=' :: tz.data) ++ ':' ::
        (dy ++ (dmo ++ (dd ++ 'T' :: (dh ++ (dmi ++ ds))))) from rfl]
    rw [findDateMatch_through _ _ ?hthrough]
    case hthrough =>
      intro c hc
      simp only [List.mem_cons] at hc
      rcases hc with h | h | h | h | h | h
      · subst h; decide
      · subst h; decide
      · subst h; decide
      · subst h; decide
      · subst h; decide
      · exact fun hor => htzok c h (hor.elim Or.inr Or.inl)
    exact findDateMatch_sep_some ':' _ _ (Or.inl rfl)
      (grabDate8_value dy dmo dd dh dmi ds h4 h2a h2b h2c h2d h2e)
  simp only [evStepSpec]
  rw [hupper]
  rw [if_neg hne_begin, if_neg hne_end]
  rw [if_neg (by decide : ¬((!true) = true))]
  rw [if_neg hnpS]
  rw [if_pos hprefE]
  rw [htzm, hfdm]
  simp only [Option.map_some']
  rw [show String.mk tz.data = tz from rfl]
  rw [parseICalDateSpec_bad_tzid db tz _ dtz dy dmo dd dh dmi ds
    h4 h2a h2b h2c h2d h2e hdb]

lemma parseEventComponentsSpec_poison (db : TzDb) (dtz : Option String)
    (pre post : List String) (line : String) (e : String)
    (hline : ∀ (cur : EvCurrentSpec) (duration : Option Nat)
        (events : List BusyInterval),
      evStepSpec db dtz (Except.ok (true, cur, duration, events)) line
        = Except.error e) :
    ∃ e2, parseEventComponentsSpec db (pre ++ "BEGIN:VEVENT" :: line :: post) dtz
        = Except.error e2 := by
  unfold parseEventComponentsSpec
  rw [List.foldl_append]
  cases hfold : pre.foldl (evStepSpec db dtz) (Except.ok (false, evInitSpec, none, [])) with
  | error e0 =>
      refine ⟨e0, ?_⟩
      rw [foldl_evStepSpec_error]
  | ok st =>
      obtain ⟨inE, cur, dur, ev⟩ := st
      refine ⟨e, ?_⟩
      rw [List.foldl_cons, evStepSpec_begin, List.foldl_cons, hline,
        foldl_evStepSpec_error]

/-! ## Claim theorems -/

set_option maxRecDepth 100000 in
/-- C1: `buildWindow` anchors the reporting window to owner-local midnight and
returns a half-open range.  For every week count, fixed owner-zone offset `o`
(minutes east of UTC) and instant `now`: the start instant is owner-local
midnight of the owner-local date of `now` (local time fields 00:00:00 and the
same owner-local date as `now`), the exclusive end instant is owner-local
midnight `weeks * 7` owner-local calendar days later, and the two instants are
exactly `weeks * 7 * 86400000` ms apart.  In particular for weeks = 1,
`now` = 2025-01-01T12:00Z (= 1735732800000) and offset UTC−05:00 (= −300 min),
the window is startDate `2025-01-01`, endDateInclusive `2025-01-07`,
startMsUtc 1735707600000 (= 2025-01-01T05:00:00Z) and endMsUtcExclusive
1736312400000 (= 2025-01-08T05:00:00Z). -/
theorem buildWindowV2_spec :
    (∀ weeks o now : Int,
      buildWindowV2 weeks now (fixedZone o)
        = { startDate := formatYmd (civilFromDays ((now + o * 60000) / 86400000))
            endDateInclusive :=
              formatYmd (civilFromDays ((now + o * 60000) / 86400000 + (weeks * 7 - 1)))
            startMsUtc := (now + o * 60000) / 86400000 * 86400000 - o * 60000
            endMsUtcExclusive :=
              ((now + o * 60000) / 86400000 + weeks * 7) * 86400000 - o * 60000 } ∧
      (buildWindowV2 weeks now (fixedZone o)).endMsUtcExclusive
          - (buildWindowV2 weeks now (fixedZone o)).startMsUtc
        = weeks * 7 * 86400000 ∧
      getZonedYmd (buildWindowV2 weeks now (fixedZone o)).startMsUtc (fixedZone o)
        = getZonedYmd now (fixedZone o) ∧
      (getZonedParts (buildWindowV2 weeks now (fixedZone o)).startMsUtc (fixedZone o)).hour = 0 ∧
      (getZonedParts (buildWindowV2 weeks now (fixedZone o)).startMsUtc (fixedZone o)).minute = 0 ∧
      (getZonedParts (buildWindowV2 weeks now (fixedZone o)).startMsUtc (fixedZone o)).second = 0 ∧
      getZonedYmd (buildWindowV2 weeks now (fixedZone o)).endMsUtcExclusive (fixedZone o)
        = addDaysToZonedYmd (getZonedYmd now (fixedZone o)) (weeks * 7)) ∧
    buildWindowV2 1 1735732800000 (fixedZone (-300))
      = { startDate := "2025-01-01", endDateInclusive := "2025-01-07",
          startMsUtc := 1735707600000, endMsUtcExclusive := 1736312400000 } := by
  constructor
  · intro weeks o now
    have hymd : getZonedYmd now (fixedZone o)
        = civilFromDays ((now + o * 60000) / 86400000) := getZonedYmd_fixed now o
    have hW : buildWindowV2 weeks now (fixedZone o)
        = { startDate := formatYmd (civilFromDays ((now + o * 60000) / 86400000))
            endDateInclusive :=
              formatYmd (civilFromDays ((now + o * 60000) / 86400000 + (weeks * 7 - 1)))
            startMsUtc := (now + o * 60000) / 86400000 * 86400000 - o * 60000
            endMsUtcExclusive :=
              ((now + o * 60000) / 86400000 + weeks * 7) * 86400000 - o * 60000 } := by
      simp only [buildWindowV2]
      rw [hymd, addDaysToZonedYmd_civil, addDaysToZonedYmd_civil,
        utcMidnight_civil_fixed, utcMidnight_civil_fixed,
        (by ring : (now + o * 60000) / 86400000 + (weeks * 7 - 1) + 1
          = (now + o * 60000) / 86400000 + weeks * 7)]
    refine ⟨hW, ?_, ?_, ?_, ?_, ?_, ?_⟩
    · rw [hW]
      dsimp only
      ring
    · rw [hW, hymd]
      dsimp only
      rw [getZonedYmd_fixed,
        (by omega : ((now + o * 60000) / 86400000 * 86400000 - o * 60000 + o * 60000)
            / 86400000 = (now + o * 60000) / 86400000)]
    · rw [hW]
      dsimp only
      simp only [getZonedParts, fixedZone]
      rw [(by ring : (now + o * 60000) / 86400000 * 86400000 - o * 60000 + o * 60000
          = (now + o * 60000) / 86400000 * 86400000), msToFields_day]
    · rw [hW]
      dsimp only
      simp only [getZonedParts, fixedZone]
      rw [(by ring : (now + o * 60000) / 86400000 * 86400000 - o * 60000 + o * 60000
          = (now + o * 60000) / 86400000 * 86400000), msToFields_day]
    · rw [hW]
      dsimp only
      simp only [getZonedParts, fixedZone]
      rw [(by ring : (now + o * 60000) / 86400000 * 86400000 - o * 60000 + o * 60000
          = (now + o * 60000) / 86400000 * 86400000), msToFields_day]
    · rw [hW, hymd, addDaysToZonedYmd_civil]
      dsimp only
      rw [getZonedYmd_fixed,
        (by omega : (((now + o * 60000) / 86400000 + weeks * 7) * 86400000 - o * 60000
            + o * 60000) / 86400000 = (now + o * 60000) / 86400000 + weeks * 7)]
  · decide


/-- C9: an all-day VEVENT with `DTSTART;VALUE=DATE:20251224`, no `DTEND` and
no `DURATION`, parsed with an owner/default zone at fixed offset UTC−05:00,
yields exactly one busy block, from 2025-12-24T05:00:00Z (= 1766552400000,
owner-local midnight of 2025-12-24) to 2025-12-25T05:00:00Z (= 1766638800000,
the next owner-local midnight, one owner-local day later). -/
theorem allDay_event_one_local_day :
    parseEventComponents
      (fun s => if s = "America/New_York" then some (fixedZone (-300)) else none)
      (unfoldLines "BEGIN:VEVENT\nDTSTART;VALUE=DATE:20251224\nEND:VEVENT")
      (some "America/New_York")
      = [(1766552400000, 1766638800000)] := by decide


/-- C2: in the modelled current resolver, a date-time value with an explicit
`TZID` naming an unsupported/invalid timezone (one the timezone database does
not resolve) is a hard failure: `parseICalDateSpec` returns
`Except.error ("unsupported_tzid: " ++ tz)` for every such floating date-time
value, every date-only flag and every default timezone; and at feed level,
every line sequence containing a `VEVENT` whose `DTSTART` (or `DTEND`)
carries such a `TZID` makes `parseEventComponentsSpec` return `Except.error`
— no busy blocks are produced and the failure is visible to the caller. -/
theorem bad_explicit_tzid_fails_feed :
    (∀ (db : TzDb) (tz : String) (b : Bool) (dtz : Option String)
        (dy dmo dd dh dmi ds : List Char),
      DigitList 4 dy → DigitList 2 dmo → DigitList 2 dd →
      DigitList 2 dh → DigitList 2 dmi → DigitList 2 ds →
      db tz = none →
      parseICalDateSpec db
          (String.mk (dy ++ (dmo ++ (dd ++ 'T' :: (dh ++ (dmi ++ ds))))))
          (some tz) b dtz
        = Except.error ("unsupported_tzid: " ++ tz)) ∧
    (∀ (db : TzDb) (dtz : Option String) (pre post : List String) (tz : String)
        (dy dmo dd dh dmi ds : List Char),
      tz.data ≠ [] → (∀ c ∈ tz.data, ¬(c = ';' ∨ c = ':')) → db tz = none →
      DigitList 4 dy → DigitList 2 dmo → DigitList 2 dd →
      DigitList 2 dh → DigitList 2 dmi → DigitList 2 ds →
      (∃ e, parseEventComponentsSpec db
          (pre ++ "BEGIN:VEVENT" ::
            String.mk ("DTSTART;TZID=".data ++ (tz.data ++ ':' ::
              (dy ++ (dmo ++ (dd ++ 'T' :: (dh ++ (dmi ++ ds))))))) :: post)
          dtz = Except.error e) ∧
      (∃ e, parseEventComponentsSpec db
          (pre ++ "BEGIN:VEVENT" ::
            String.mk ("DTEND;TZID=".data ++ (tz.data ++ ':' ::
              (dy ++ (dmo ++ (dd ++ 'T' :: (dh ++ (dmi ++ ds))))))) :: post)
          dtz = Except.error e)) := by
  refine ⟨?_, ?_⟩
  · intro db tz b dtz dy dmo dd dh dmi ds h4 h2a h2b h2c h2d h2e hdb
    exact parseICalDateSpec_bad_tzid db tz b dtz dy dmo dd dh dmi ds
      h4 h2a h2b h2c h2d h2e hdb
  · intro db dtz pre post tz dy dmo dd dh dmi ds htzne htzok hdb
      h4 h2a h2b h2c h2d h2e
    refine ⟨?_, ?_⟩
    · exact parseEventComponentsSpec_poison db dtz pre post _ _
        (fun cur dur ev => evStepSpec_poison_dtstart db dtz cur dur ev tz
          dy dmo dd dh dmi ds htzne htzok hdb h4 h2a h2b h2c h2d h2e)
    · exact parseEventComponentsSpec_poison db dtz pre post _ _
        (fun cur dur ev => evStepSpec_poison_dtend db dtz cur dur ev tz
          dy dmo dd dh dmi ds htzne htzok hdb h4 h2a h2b h2c h2d h2e)

/-- Witness for C2 at the inputs of the repository test
("throws when TZID is provided but unsupported"): `TZID=Bad/Zone` on
`20260101T100000`, with an empty database. -/
theorem bad_explicit_tzid_fails_feed_witness :
    parseICalDateSpec (fun _ => none)
        (String.mk ("2026".data ++ ("01".data ++ ("01".data ++ 'T' ::
          ("10".data ++ ("00".data ++ "00".data))))))
        (some "Bad/Zone") false (some "America/New_York")
      = Except.error ("unsupported_tzid: " ++ "Bad/Zone") ∧
    (∃ e, parseEventComponentsSpec (fun _ => none)
        ["BEGIN:VEVENT",
         String.mk ("DTSTART;TZID=".data ++ ("Bad/Zone".data ++ ':' ::
           ("2026".data ++ ("01".data ++ ("01".data ++ 'T' ::
             ("10".data ++ ("00".data ++ "00".data)))))))]
        (some "America/New_York") = Except.error e) := by
  constructor
  · exact bad_explicit_tzid_fails_feed.1 (fun _ => none) "Bad/Zone" false
      (some "America/New_York") "2026".data "01".data "01".data
      "10".data "00".data "00".data (by decide) (by decide) (by decide)
      (by decide) (by decide) (by decide) rfl
  · exact (bad_explicit_tzid_fails_feed.2 (fun _ => none)
      (some "America/New_York") [] [] "Bad/Zone" "2026".data "01".data
      "01".data "10".data "00".data "00".data (by decide) (by decide) rfl
      (by decide) (by decide) (by decide) (by decide) (by decide)
      (by decide)).1


/-- C4: in the modelled current resolver, a floating date-time value (time
part, no trailing `Z`, no offset suffix, no explicit `TZID`) with a supplied
and resolvable default/owner timezone is converted from its wall-clock fields
in that zone (via the Zoned Time Utility of `src/time.ts`); with no default
timezone supplied it is treated as UTC. -/
theorem floating_datetime_default_tz :
    (∀ (db : TzDb) (zone : Zone) (dtzName : String)
        (dy dmo dd dh dmi ds : List Char),
      DigitList 4 dy → DigitList 2 dmo → DigitList 2 dd →
      DigitList 2 dh → DigitList 2 dmi → DigitList 2 ds →
      db dtzName = some zone →
      parseICalDateSpec db
          (String.mk (dy ++ (dmo ++ (dd ++ 'T' :: (dh ++ (dmi ++ ds))))))
          none false (some dtzName)
        = Except.ok (some (localDateTimeToUtcMillis
            { year := (natOfDigits dy : Int), month := (natOfDigits dmo : Int)
              day := (natOfDigits dd : Int), hour := (natOfDigits dh : Int)
              minute := (natOfDigits dmi : Int), second := (natOfDigits ds : Int) }
            0 zone))) ∧
    (∀ (db : TzDb) (dy dmo dd dh dmi ds : List Char),
      DigitList 4 dy → DigitList 2 dmo → DigitList 2 dd →
      DigitList 2 dh → DigitList 2 dmi → DigitList 2 ds →
      parseICalDateSpec db
          (String.mk (dy ++ (dmo ++ (dd ++ 'T' :: (dh ++ (dmi ++ ds))))))
          none false none
        = Except.ok (some (dateUTCms (natOfDigits dy) ((natOfDigits dmo : Int) - 1)
            (natOfDigits dd) (natOfDigits dh) (natOfDigits dmi)
            (natOfDigits ds) 0))) := by
  constructor
  · intro db zone dtzName dy dmo dd dh dmi ds h4 h2a h2b h2c h2d h2e hdb
    simp only [parseICalDateSpec]
    rw [icalValueSpec_floating dy dmo dd dh dmi ds h4 h2a h2b h2c h2d h2e]
    dsimp only
    rw [if_neg (by simp)]
    rw [hdb]
  · intro db dy dmo dd dh dmi ds h4 h2a h2b h2c h2d h2e
    simp only [parseICalDateSpec]
    rw [icalValueSpec_floating dy dmo dd dh dmi ds h4 h2a h2b h2c h2d h2e]
    dsimp only
    rw [if_neg (by simp)]

/-- Witness for C4 at the inputs of the repository test
("treats floating DATE-TIME as owner timezone"): `20260105T100000` with owner
zone at UTC−05:00 resolves to 2026-01-05T15:00:00Z, and without a default
timezone to 2026-01-05T10:00:00Z. -/
theorem floating_datetime_default_tz_witness :
    parseICalDateSpec (fun s => if s = "America/New_York"
          then some (fixedZone (-300)) else none)
        (String.mk ("2026".data ++ ("01".data ++ ("05".data ++ 'T' ::
          ("10".data ++ ("00".data ++ "00".data))))))
        none false (some "America/New_York")
      = Except.ok (some 1767625200000) ∧
    parseICalDateSpec (fun _ => none)
        (String.mk ("2026".data ++ ("01".data ++ ("05".data ++ 'T' ::
          ("10".data ++ ("00".data ++ "00".data))))))
        none false none
      = Except.ok (some 1767607200000) := by
  constructor
  · exact (floating_datetime_default_tz.1
      (fun s => if s = "America/New_York" then some (fixedZone (-300)) else none)
      (fixedZone (-300)) "America/New_York" "2026".data "01".data "05".data
      "10".data "00".data "00".data (by decide) (by decide) (by decide)
      (by decide) (by decide) (by decide) rfl).trans (by decide)
  · exact (floating_datetime_default_tz.2 (fun _ => none) "2026".data "01".data
      "05".data "10".data "00".data "00".data (by decide) (by decide)
      (by decide) (by decide) (by decide) (by decide)).trans (by decide)

/-- C8: in the modelled current resolver, a date-time value with a fixed
numeric-offset suffix `±HHMM`, offset hour 0–23 and offset minute 0–59,
resolves by direct offset arithmetic — wall-clock instant minus the signed
offset — for every timezone database, explicit `TZID` and default timezone
(no timezone/DST lookup); an out-of-range offset hour or minute fails the
field (no instant). -/
theorem offset_suffix_direct_arithmetic :
    ∀ (db : TzDb) (tzid dtz : Option String)
      (dy dmo dd dh dmi ds oh om : List Char) (sgn : Char),
      DigitList 4 dy → DigitList 2 dmo → DigitList 2 dd →
      DigitList 2 dh → DigitList 2 dmi → DigitList 2 ds →
      DigitList 2 oh → DigitList 2 om → (sgn = '+' ∨ sgn = '-') →
      (natOfDigits oh ≤ 23 → natOfDigits om ≤ 59 →
        parseICalDateSpec db
            (String.mk (dy ++ (dmo ++ (dd ++ 'T' ::
              (dh ++ (dmi ++ (ds ++ sgn :: (oh ++ om))))))))
            tzid false dtz
          = Except.ok (some (dateUTCms (natOfDigits dy)
              ((natOfDigits dmo : Int) - 1) (natOfDigits dd) (natOfDigits dh)
              (natOfDigits dmi) (natOfDigits ds) 0
              - (if sgn = '+' then 1 else -1)
                * ((natOfDigits oh : Int) * 60 + (natOfDigits om : Int))
                * 60000))) ∧
      (¬(natOfDigits oh ≤ 23 ∧ natOfDigits om ≤ 59) →
        parseICalDateSpec db
            (String.mk (dy ++ (dmo ++ (dd ++ 'T' ::
              (dh ++ (dmi ++ (ds ++ sgn :: (oh ++ om))))))))
            tzid false dtz
          = Except.ok none) := by
  intro db tzid dtz dy dmo dd dh dmi ds oh om sgn
    h4 h2a h2b h2c h2d h2e hoh hom hs
  constructor
  · intro h1 h2
    simp only [parseICalDateSpec]
    rw [icalValueSpec_offset dy dmo dd dh dmi ds oh om sgn
      h4 h2a h2b h2c h2d h2e hoh hom hs]
    dsimp only
    rw [if_neg (by simp)]
    rw [if_pos ⟨h1, h2⟩]
  · intro hn
    simp only [parseICalDateSpec]
    rw [icalValueSpec_offset dy dmo dd dh dmi ds oh om sgn
      h4 h2a h2b h2c h2d h2e hoh hom hs]
    dsimp only
    rw [if_neg (by simp)]
    rw [if_neg hn]

/-- Witness for C8 at the inputs of the repository tests
("parses numeric offset timestamps (±HHMM)" and "ignores invalid numeric
offset timestamps"): `20260101T000000-0500` resolves to 2026-01-01T05:00:00Z
regardless of the database, and `20260101T000000+9999` fails the field. -/
theorem offset_suffix_direct_arithmetic_witness :
    parseICalDateSpec (fun _ => none)
        (String.mk ("2026".data ++ ("01".data ++ ("01".data ++ 'T' ::
          ("00".data ++ ("00".data ++ ("00".data ++ '-' ::
            ("05".data ++ "00".data))))))))
        none false (some "America/New_York")
      = Except.ok (some 1767243600000) ∧
    parseICalDateSpec (fun _ => none)
        (String.mk ("2026".data ++ ("01".data ++ ("01".data ++ 'T' ::
          ("00".data ++ ("00".data ++ ("00".data ++ '+' ::
            ("99".data ++ "99".data))))))))
        none false (some "America/New_York")
      = Except.ok none := by
  constructor
  · exact ((offset_suffix_direct_arithmetic (fun _ => none) none
      (some "America/New_York") "2026".data "01".data "01".data "00".data
      "00".data "00".data "05".data "00".data '-' (by decide) (by decide)
      (by decide) (by decide) (by decide) (by decide) (by decide) (by decide)
      (Or.inr rfl)).1 (by decide) (by decide)).trans (by decide)
  · exact (offset_suffix_direct_arithmetic (fun _ => none) none
      (some "America/New_York") "2026".data "01".data "01".data "00".data
      "00".data "00".data "99".data "99".data '+' (by decide) (by decide)
      (by decide) (by decide) (by decide) (by decide) (by decide) (by decide)
      (Or.inl rfl)).2 (by decide)


/-- C3: for every input interval list and every window with
`windowStart < windowEndExclusive`, every interval output by `clipAndMerge`
satisfies `windowStart ≤ start < end ≤ windowEndExclusive`, and the output is
pairwise non-overlapping and non-adjacent (each interval's start strictly
greater than the previous interval's end), hence sorted ascending by start. -/
theorem clipAndMerge_window_invariant (xs : List BusyInterval) (ws we : Int)
    (hw : ws < we) :
    (∀ b ∈ clipAndMerge xs ws we,
        ws ≤ b.startMsUtc ∧ b.startMsUtc < b.endMsUtc ∧ b.endMsUtc ≤ we) ∧
      List.Chain' Gapped (clipAndMerge xs ws we) ∧
      List.Chain' (fun a b => a.startMsUtc < b.startMsUtc) (clipAndMerge xs ws we) := by
  obtain ⟨h1, h2⟩ := clipAndMerge_inv xs ws we
  exact ⟨h1, h2, chain_gap_implies_start_sorted _ (fun b hb => (h1 b hb).2.1) h2⟩

theorem clipAndMerge_window_invariant_witness :
    (2 : Int) < 15 ∧
      ((∀ b ∈ clipAndMerge [⟨0, 10, BusyKind.time⟩, ⟨5, 20, BusyKind.allDay⟩] 2 15,
          (2 : Int) ≤ b.startMsUtc ∧ b.startMsUtc < b.endMsUtc ∧ b.endMsUtc ≤ 15) ∧
        List.Chain' Gapped (clipAndMerge [⟨0, 10, BusyKind.time⟩, ⟨5, 20, BusyKind.allDay⟩] 2 15) ∧
        List.Chain' (fun a b => a.startMsUtc < b.startMsUtc)
          (clipAndMerge [⟨0, 10, BusyKind.time⟩, ⟨5, 20, BusyKind.allDay⟩] 2 15)) :=
  ⟨by decide,
    clipAndMerge_window_invariant [⟨0, 10, BusyKind.time⟩, ⟨5, 20, BusyKind.allDay⟩] 2 15
      (by decide)⟩

/-- C5: `clipAndMerge` is idempotent for a fixed window: re-applying it to its
own output returns that output unchanged, and more generally any sorted,
pairwise-disjoint, non-adjacent sequence lying inside the window is returned
unchanged. -/
theorem clipAndMerge_idempotent (xs : List BusyInterval) (ws we : Int) :
    clipAndMerge (clipAndMerge xs ws we) ws we = clipAndMerge xs ws we ∧
      (∀ l : List BusyInterval, (∀ b ∈ l, InBounds ws we b) →
        List.Chain' Gapped l → clipAndMerge l ws we = l) := by
  obtain ⟨h1, h2⟩ := clipAndMerge_inv xs ws we
  exact ⟨clipAndMerge_eq_self _ ws we h1 h2,
    fun l hb hch => clipAndMerge_eq_self l ws we hb hch⟩

/-- C10: `clipAndMerge` never mutates its input.  Over the explicit heap
model (JavaScript object identity made explicit), every cell of the original
heap — in particular every block object referenced by the input array — still
holds its original start/end instants and kind after the call, and the
references returned dereference to exactly the pure `clipAndMerge` of the
dereferenced input: all clipping and end-extension happens on freshly
allocated copies. -/
theorem clipAndMerge_no_input_mutation (heap : List BusyInterval) (input : List Nat)
    (ws we : Int) (hin : ∀ i ∈ input, i < heap.length) :
    (∀ j < heap.length,
        cellAt (clipAndMergeHeap heap input ws we).1 j = cellAt heap j) ∧
      (clipAndMergeHeap heap input ws we).2.map
          (fun i => cellAt (clipAndMergeHeap heap input ws we).1 i)
        = clipAndMerge (input.map (fun i => cellAt heap i)) ws we := by
  obtain ⟨e1, e2, e3⟩ := allocClipped_spec ws we input heap hin
  have hlen1 : heap.length ≤ (allocClipped ws we heap input).1.length := by
    rw [e1]
    simp only [List.length_append, List.length_map]
    omega
  have hto : ∀ i ∈ sortIdsByStart (allocClipped ws we heap input).1
      ((allocClipped ws we heap input).2.filter
        (fun i => keepInterval ws we (cellAt (allocClipped ws we heap input).1 i))),
      i < (allocClipped ws we heap input).1.length := by
    intro i hi
    rw [mem_sortIdsByStart] at hi
    rw [List.mem_filter] at hi
    exact (e3 i hi.1).2
  have hv : (sortIdsByStart (allocClipped ws we heap input).1
        ((allocClipped ws we heap input).2.filter
          (fun i => keepInterval ws we (cellAt (allocClipped ws we heap input).1 i)))).map
        (fun i => cellAt (allocClipped ws we heap input).1 i)
      = sortByStart (((input.map (fun i => cellAt heap i)).map
          (clipInterval ws we)).filter (keepInterval ws we)) := by
    rw [sortIdsByStart_deref, map_filter_comm, e2, List.map_map]
    rfl
  obtain ⟨f1, f2, f3, f4, f5⟩ := foldl_mergeStepHeap_sim
    (allocClipped ws we heap input).1.length _ (allocClipped ws we heap input).1 []
    _ hto (le_refl _) (by intro j hj; simp at hj) List.chain'_nil hv
  constructor
  · intro j hj
    have hj1 : j < (allocClipped ws we heap input).1.length := lt_of_lt_of_le hj hlen1
    show cellAt (List.foldl mergeStepHeap ((allocClipped ws we heap input).1, []) _).1 j
        = cellAt heap j
    rw [f1 j hj1, e1, cellAt_append_left heap _ j hj]
  · show (List.foldl mergeStepHeap ((allocClipped ws we heap input).1, []) _).2.reverse.map
        (fun i => cellAt (List.foldl mergeStepHeap ((allocClipped ws we heap input).1, []) _).1 i)
      = clipAndMerge (input.map (fun i => cellAt heap i)) ws we
    rw [List.map_reverse, f5]
    rfl

theorem clipAndMerge_no_input_mutation_witness :
    (∀ i ∈ [0, 1], i < ([⟨0, 10, BusyKind.time⟩, ⟨12, 20, BusyKind.allDay⟩] :
        List BusyInterval).length) ∧
      ((∀ j < ([⟨0, 10, BusyKind.time⟩, ⟨12, 20, BusyKind.allDay⟩] :
          List BusyInterval).length,
        cellAt (clipAndMergeHeap [⟨0, 10, BusyKind.time⟩, ⟨12, 20, BusyKind.allDay⟩]
            [0, 1] 2 30).1 j
          = cellAt [⟨0, 10, BusyKind.time⟩, ⟨12, 20, BusyKind.allDay⟩] j) ∧
      (clipAndMergeHeap [⟨0, 10, BusyKind.time⟩, ⟨12, 20, BusyKind.allDay⟩] [0, 1] 2 30).2.map
          (fun i => cellAt (clipAndMergeHeap [⟨0, 10, BusyKind.time⟩,
              ⟨12, 20, BusyKind.allDay⟩] [0, 1] 2 30).1 i)
        = clipAndMerge ([0, 1].map
            (fun i => cellAt [⟨0, 10, BusyKind.time⟩, ⟨12, 20, BusyKind.allDay⟩] i)) 2 30) :=
  ⟨by decide,
    clipAndMerge_no_input_mutation [⟨0, 10, BusyKind.time⟩, ⟨12, 20, BusyKind.allDay⟩]
      [0, 1] 2 30 (by decide)⟩

/-- C7: `unfoldLines` joins each physical line beginning with one space or
tab to the prior logical line with the leading character stripped, drops a
continuation appearing as the very first physical line, accepts CRLF or LF
line endings (same result for both), and on `"A:1\r\n B\r\nC:2"` returns
exactly `["A:1B", "C:2"]`. -/
theorem unfoldLines_spec :
    (∀ lines : List (List Char), lines ≠ [] → (∀ l ∈ lines, NoCRLF l) →
      unfoldLines (String.mk (joinLines ['\r', '\n'] lines))
          = (unfoldSpec lines).map (fun l => String.mk l) ∧
        unfoldLines (String.mk (joinLines ['\n'] lines))
          = (unfoldSpec lines).map (fun l => String.mk l)) ∧
      unfoldLines "A:1\r\n B\r\nC:2" = ["A:1B", "C:2"] := by
  constructor
  · intro lines hne hno
    obtain ⟨h1, h2⟩ := splitLines_joinLines lines hne hno
    constructor
    · show (((splitLinesAux (joinLines ['\r', '\n'] lines) []).foldl unfoldStep
          []).reverse).map (fun l => String.mk l) = _
      rw [h1, foldl_unfoldStep_spec]
      rfl
    · show (((splitLinesAux (joinLines ['\n'] lines) []).foldl unfoldStep
          []).reverse).map (fun l => String.mk l) = _
      rw [h2, foldl_unfoldStep_spec]
      rfl
  · decide

theorem unfoldLines_spec_witness :
    ((([['A', ':', '1'], [' ', 'B'], ['C', ':', '2']] : List (List Char)) ≠ [] ∧
        ∀ l ∈ ([['A', ':', '1'], [' ', 'B'], ['C', ':', '2']] : List (List Char)), NoCRLF l) ∧
      unfoldLines (String.mk (joinLines ['\r', '\n']
          [['A', ':', '1'], [' ', 'B'], ['C', ':', '2']]))
        = (unfoldSpec [['A', ':', '1'], [' ', 'B'], ['C', ':', '2']]).map
            (fun l => String.mk l)) :=
  ⟨⟨by decide, by decide⟩,
    (unfoldLines_spec.1 [['A', ':', '1'], [' ', 'B'], ['C', ':', '2']]
      (by decide) (by decide)).1⟩

/-- C6: `parseDuration` accepts exactly the strings of the grammar
`P[nD][T[nH][nM][nS]]` (the all-numbers-absent form `"P"` yields 0), returns
the total in milliseconds clamped to at most 366 days (clamped, never
rejected), fails (`NaN`, modelled `none`) on week designators such as
`"P2W"` and on anything outside the grammar, and returns 5400000 for
`"PT1H30M"` and 90000000 for `"P1DT1H"`. -/
theorem parseDuration_spec :
    (∀ (d : Option (List Char))
        (t : Option (Option (List Char) × Option (List Char) × Option (List Char))),
      optDigits d → durTOk t →
        parseDuration (String.mk (durAssemble d t))
          = some (min (durSeconds d t * 1000) MAX_DURATION_MS)) ∧
      (∀ (s : String) (v : Nat), parseDuration s = some v →
        InDurGrammar s ∧ v ≤ MAX_DURATION_MS) ∧
      MAX_DURATION_MS = 366 * 24 * 60 * 60 * 1000 ∧
      parseDuration "P2W" = none ∧
      parseDuration "P" = some 0 ∧
      parseDuration "PT1H30M" = some 5400000 ∧
      parseDuration "P1DT1H" = some 90000000 :=
  ⟨parseDuration_build, parseDuration_inv, by decide, by decide, by decide, by decide,
    by decide⟩

theorem parseDuration_spec_witness :
    (optDigits (some ['4', '0', '0']) ∧ durTOk none ∧
        parseDuration (String.mk (durAssemble (some ['4', '0', '0']) none))
          = some (min (durSeconds (some ['4', '0', '0']) none * 1000) MAX_DURATION_MS)) ∧
      (parseDuration "PT1H30M" = some 5400000 ∧
        InDurGrammar "PT1H30M" ∧ 5400000 ≤ MAX_DURATION_MS) :=
  ⟨⟨by decide, by decide,
      parseDuration_spec.1 (some ['4', '0', '0']) none (by decide) (by decide)⟩,
    ⟨by decide, parseDuration_spec.2.1 "PT1H30M" 5400000 (by decide)⟩⟩

theorem clipAndMerge_idempotent_witness :
    clipAndMerge (clipAndMerge [⟨0, 10, BusyKind.time⟩, ⟨5, 20, BusyKind.allDay⟩] 2 15) 2 15 =
        clipAndMerge [⟨0, 10, BusyKind.time⟩, ⟨5, 20, BusyKind.allDay⟩] 2 15 ∧
      clipAndMerge [⟨3, 4, BusyKind.time⟩, ⟨6, 9, BusyKind.allDay⟩] 0 10 =
        [⟨3, 4, BusyKind.time⟩, ⟨6, 9, BusyKind.allDay⟩] :=
  ⟨(clipAndMerge_idempotent [⟨0, 10, BusyKind.time⟩, ⟨5, 20, BusyKind.allDay⟩] 2 15).1,
    (clipAndMerge_idempotent [] 0 10).2 [⟨3, 4, BusyKind.time⟩, ⟨6, 9, BusyKind.allDay⟩]
      (by decide) (List.chain'_cons.mpr ⟨by decide, List.chain'_singleton _⟩)⟩

end FreeBusy
